import Mathlib

/-!
Verification of the directus-mcp-server core: a shallow embedding of the
toolset registration/filtering mechanism, the generic HTTP resource client
(request normalization, query-string serialization, error handling), the
tool wrapper factories, and the authentication bootstrap, together with
theorems settling the specified properties.

JavaScript-level conventions used throughout the embedding:
- optional / possibly-`undefined` values are `Option`;
- JS truthiness of a string is "non-empty"; of an array/object it is `true`
  (even for the empty array); of `undefined`/`null` it is `false`;
- promises are `Except`: `.ok` models resolution, `.error` models rejection;
- character-level operations (trim, toLowerCase) are modelled on the ASCII
  range, which covers every token the code compares against.
-/

namespace DirectusMCP

/-! ## Generic string/list helpers (models of the JS primitives used) -/

/-- Boolean test that `p` is a prefix of `s` (model of `String.prototype.startsWith`
at the character-list level). -/
def listStarts : List Char → List Char → Bool
  | [], _ => true
  | _ :: _, [] => false
  | p :: ps, c :: cs => p = c && listStarts ps cs

/-- Boolean test that `p` occurs contiguously inside `s` (model of
`String.prototype.includes`). -/
def listHasInside (p : List Char) : List Char → Bool
  | [] => p.isEmpty
  | c :: cs => listStarts p (c :: cs) || listHasInside p cs

/-- Model of `s.includes(p)` on Lean strings. -/
def strContains (s p : String) : Bool := listHasInside p.data s.data

/-- Splitting on a single separator character, exactly as
`String.prototype.split(sep)` behaves for a one-character separator:
`"" ↦ [""]`, `"a,,b" ↦ ["a","","b"]`. -/
def splitOnChar (sep : Char) : List Char → List (List Char)
  | [] => [[]]
  | c :: cs =>
    if c = sep then [] :: splitOnChar sep cs
    else
      match splitOnChar sep cs with
      | [] => [[c]]
      | g :: gs => (c :: g) :: gs

/-- The whitespace characters relevant to `String.prototype.trim` in the ASCII
range (space, tab, line feed, carriage return, vertical tab, form feed). -/
def isJsSpace (c : Char) : Bool :=
  c = ' ' || c = '\t' || c = '\n' || c = '\r' || c = '\x0b' || c = '\x0c'

/-- Character-list trim: drop leading and trailing whitespace. -/
def trimChars (cs : List Char) : List Char :=
  ((cs.dropWhile isJsSpace).reverse.dropWhile isJsSpace).reverse

/-- Model of `String.prototype.trim`. -/
def jsTrim (s : String) : String := ⟨trimChars s.data⟩

/-- Model of `String.prototype.toLowerCase` restricted to ASCII (`A`–`Z`
map to `a`–`z`; every toolset token the code compares against is ASCII). -/
def jsLowerChar (c : Char) : Char :=
  if 'A' ≤ c ∧ c ≤ 'Z' then Char.ofNat (c.toNat + 32) else c

/-- JS truthiness of a possibly-absent string: `undefined` and `""` are falsy. -/
def strTruthy : Option String → Bool
  | none => false
  | some s => s ≠ ""

/-! ## Toolset vocabulary and the toolset filter

Embedded from `src/index.test.ts` (`parseToolsets`, `filterToolsByToolsets`),
the current form of the toolset logic of `src/index.ts`: it carries the
catch-all tag `all` and the `dashboards` group. (An earlier revision of
`index.ts`, also present in the sources, predates the catch-all tag.) -/

/-- The closed vocabulary of toolset tags. -/
inductive Toolset where
  | default
  | schema
  | content
  | flow
  | collections
  | fields
  | relations
  | dashboards
  | all
deriving DecidableEq, Repr

/-- The validation step `validToolsets.includes(t)` combined with the cast to
`Toolset`: a string is valid exactly when it names a tag. -/
def toolsetOfString (s : String) : Option Toolset :=
  if s = "default" then some .default
  else if s = "schema" then some .schema
  else if s = "content" then some .content
  else if s = "flow" then some .flow
  else if s = "collections" then some .collections
  else if s = "fields" then some .fields
  else if s = "relations" then some .relations
  else if s = "dashboards" then some .dashboards
  else if s = "all" then some .all
  else none

/-- The token pipeline of `parseToolsets`: split the configuration string on
commas, trim and lowercase each token, drop empties (`t.length > 0`), and keep
only tokens naming a valid toolset (`requestedToolsets.filter(...)` followed by
the validity filter). -/
def validatedToolsets (s : String) : List Toolset :=
  (((splitOnChar ',' s.data).map fun t => (trimChars t).map jsLowerChar).filter
    (fun t => t ≠ [])).filterMap fun t => toolsetOfString ⟨t⟩

/-- Model of `parseToolsets(envValue)`: absent or blank configuration yields
`['default']`; the catch-all tag collapses the set to `['all']`; an entirely
invalid configuration falls back to `['default']`. -/
def parseToolsets (envValue : Option String) : List Toolset :=
  match envValue with
  | none => [.default]
  | some s =>
    if jsTrim s = "" then [.default]
    else
      let filtered := validatedToolsets s
      if Toolset.all ∈ filtered then [.all]
      else if filtered = [] then [.default]
      else filtered

/-- The slice of an MCP tool descriptor that the toolset filter inspects.
`toolsets` is `Option`al because the code guards with `tool.toolsets?.some(...)
?? false`. -/
structure ToolMeta where
  name : String
  toolsets : Option (List Toolset)
deriving DecidableEq, Repr

/-- Model of `filterToolsByToolsets(tools, toolsets)`: with the catch-all tag
active every tool passes; otherwise a tool passes when its declared membership
meets the active set (tools with no declared membership never pass). -/
def filterToolsByToolsets (tools : List ToolMeta) (toolsets : List Toolset) :
    List ToolMeta :=
  if Toolset.all ∈ toolsets then tools
  else
    tools.filter fun tool =>
      match tool.toolsets with
      | some ts => ts.any fun t => decide (t ∈ toolsets)
      | none => false

/-! ## Resource client configuration and construction (directus-client.ts) -/

/-- Model of the `DirectusConfig` interface: every credential field optional. -/
structure DirectusConfig where
  url : String
  token : Option String := none
  email : Option String := none
  password : Option String := none

/-- The authentication mode `initializeClient` settles on. -/
inductive AuthMode where
  | staticToken (token : String)
  | sessionAuth
deriving DecidableEq, Repr

/-- Model of `DirectusClient.initializeClient`, the credential dispatch run
synchronously by the constructor (no network activity happens here; the
`createDirectus(...).with(rest())` plumbing builds a client object only).
`.error` models the synchronously thrown configuration error. -/
def initializeClient (config : DirectusConfig) : Except String AuthMode :=
  if strTruthy config.token then .ok (.staticToken (config.token.getD ""))
  else if strTruthy config.email && strTruthy config.password then .ok .sessionAuth
  else .error "Authentication configuration required: provide either token or email/password"

/-! ## JSON values and `JSON.stringify`

`Json` models the JSON-representable JavaScript values the client passes
around (numbers restricted to integers, which covers every value the claims
exercise and keeps `String(n)` faithful). -/

inductive Json where
  | null
  | bool (b : Bool)
  | num (n : Int)
  | str (s : String)
  | arr (elems : List Json)
  | obj (members : List (String × Json))
deriving Inhabited

/-- Decimal digit characters of `n`, most significant first, accumulated. -/
def natCharsAux (n : Nat) (acc : List Char) : List Char :=
  if h : n < 10 then Char.ofNat ('0'.toNat + n % 10) :: acc
  else natCharsAux (n / 10) (Char.ofNat ('0'.toNat + n % 10) :: acc)
termination_by n
decreasing_by omega

/-- Decimal digit characters of a natural number. -/
def natChars (n : Nat) : List Char := natCharsAux n []

/-- Characters of an integer as JavaScript prints it: optional minus sign,
then decimal digits. -/
def intChars (i : Int) : List Char :=
  (if i < 0 then ['-'] else []) ++ natChars i.natAbs

/-- Lowercase hexadecimal digit, as `JSON.stringify` emits in `\u00xx`. -/
def hexLowerCh (n : Nat) : Char :=
  if n < 10 then Char.ofNat ('0'.toNat + n) else Char.ofNat ('a'.toNat + (n - 10))

/-- One character as `JSON.stringify` escapes it inside a string literal:
quote and backslash get a backslash escape, the five control characters with
short forms use them, the remaining control characters use `\u00xx`, and
everything else is emitted verbatim. -/
def escapeJChar (c : Char) : List Char :=
  if c = '"' then ['\\', '"']
  else if c = '\\' then ['\\', '\\']
  else if c = '\x08' then ['\\', 'b']
  else if c = '\t' then ['\\', 't']
  else if c = '\n' then ['\\', 'n']
  else if c = '\x0c' then ['\\', 'f']
  else if c = '\r' then ['\\', 'r']
  else if c.toNat < 0x20 then
    ['\\', 'u', '0', '0', hexLowerCh (c.toNat / 16), hexLowerCh (c.toNat % 16)]
  else [c]

/-- A JSON string literal: quote, escaped characters, quote. -/
def renderJStr (s : String) : List Char :=
  '"' :: (s.data.flatMap escapeJChar ++ ['"'])

mutual
/-- Characters of `JSON.stringify(j)` (compact form, no whitespace). -/
def renderJ : Json → List Char
  | .null => 'n' :: ['u', 'l', 'l']
  | .bool true => 't' :: ['r', 'u', 'e']
  | .bool false => 'f' :: ['a', 'l', 's', 'e']
  | .num i => intChars i
  | .str s => renderJStr s
  | .arr es => '[' :: (renderJList es ++ [']'])
  | .obj ms => '{' :: (renderJMembers ms ++ ['}'])
/-- Comma-separated array elements (compact). -/
def renderJList : List Json → List Char
  | [] => []
  | e :: es => renderJ e ++ renderJListTail es
/-- Continuation of an element list: a comma before every further element. -/
def renderJListTail : List Json → List Char
  | [] => []
  | e :: es => ',' :: (renderJ e ++ renderJListTail es)
/-- Comma-separated object members `"key":value` (compact). -/
def renderJMembers : List (String × Json) → List Char
  | [] => []
  | (k, v) :: ms => renderJStr k ++ ':' :: (renderJ v ++ renderJMembersTail ms)
/-- Continuation of a member list: a comma before every further member. -/
def renderJMembersTail : List (String × Json) → List Char
  | [] => []
  | (k, v) :: ms => ',' :: (renderJStr k ++ ':' :: (renderJ v ++ renderJMembersTail ms))
end

/-- Model of `JSON.stringify(j)` (no indentation argument). -/
def jsonStringify (j : Json) : String := ⟨renderJ j⟩

/-- Indentation prefix at nesting level `n` for a 2-space gap. -/
def indentChars (n : Nat) : List Char := List.replicate (2 * n) ' '

mutual
/-- Characters of `JSON.stringify(j, null, 2)` at nesting level `ind`:
non-empty arrays and objects break onto indented lines; members separate the
key from the value with `: `. -/
def renderJP : Nat → Json → List Char
  | _, .null => 'n' :: ['u', 'l', 'l']
  | _, .bool true => 't' :: ['r', 'u', 'e']
  | _, .bool false => 'f' :: ['a', 'l', 's', 'e']
  | _, .num i => intChars i
  | _, .str s => renderJStr s
  | _, .arr [] => ['[', ']']
  | ind, .arr (e :: es) =>
    '[' :: '\n' :: (indentChars (ind + 1) ++ renderJP (ind + 1) e
      ++ renderJPListTail (ind + 1) es ++ '\n' :: (indentChars ind ++ [']']))
  | _, .obj [] => ['{', '}']
  | ind, .obj (m :: ms) =>
    '{' :: '\n' :: (indentChars (ind + 1) ++ renderJPMember (ind + 1) m
      ++ renderJPMembersTail (ind + 1) ms ++ '\n' :: (indentChars ind ++ ['}']))
/-- Further pretty-printed elements, each on its own indented line. -/
def renderJPListTail : Nat → List Json → List Char
  | _, [] => []
  | ind, e :: es =>
    ',' :: '\n' :: (indentChars ind ++ renderJP ind e ++ renderJPListTail ind es)
/-- One pretty-printed member: `"key": value`. -/
def renderJPMember : Nat → String × Json → List Char
  | ind, (k, v) => renderJStr k ++ ':' :: ' ' :: renderJP ind v
/-- Further pretty-printed members, each on its own indented line. -/
def renderJPMembersTail : Nat → List (String × Json) → List Char
  | _, [] => []
  | ind, m :: ms =>
    ',' :: '\n' :: (indentChars ind ++ renderJPMember ind m ++ renderJPMembersTail ind ms)
end

/-- Model of `JSON.stringify(j, null, 2)`. -/
def jsonStringify2 (j : Json) : String := ⟨renderJP 0 j⟩

/-! ## The request normalizer (`DirectusClient.request`)

The transport is abstracted into the single outcome of the one `fetch` call a
`request` invocation performs (the function consumes exactly one transport
outcome, so nothing is ever retried by construction). -/

/-- A JavaScript value thrown inside the `try` block, profiled by the three
properties the `catch` handler inspects: `message` is `some m` when the thrown
value has a string `message` property (an `Error`), `none` otherwise (a thrown
string, number, plain object, ...); `errorsHeadMessage` is the value of
`errors[0].message` when that path exists and is a string; `stringRep` is
`String(error)`. -/
structure ThrownValue where
  message : Option String := none
  errorsHeadMessage : Option String := none
  stringRep : String := ""

/-- Outcome of the underlying `fetch` call: an HTTP response whose body either
parses as JSON (`.ok`) or fails to parse (`.error m`, the `SyntaxError`
message from `response.json()`), or a transport-level rejection. -/
inductive FetchOutcome where
  | response (status : Nat) (statusText : String) (body : Except String Json)
  | thrown (e : ThrownValue)

/-- Settlement of a `request` call: resolution with a parsed body, resolution
with the synthetic `{ success: true }` marker, rejection with an `Error`
carrying a message, or a secondary exception escaping the `catch` handler
itself (a `TypeError`, not a constructed `Error`). -/
inductive RequestResult where
  | ok (body : Json)
  | okSuccessMarker
  | error (message : String)
  | crash (reason : String)

/-- First member of an object with the given key (JS property access). -/
def jsonField (j : Json) (key : String) : Option Json :=
  match j with
  | .obj ms => (ms.find? fun kv => kv.1 = key).map Prod.snd
  | _ => none

/-- Element `[0]` of an array value. -/
def jsonArrHead : Json → Option Json
  | .arr (x :: _) => some x
  | _ => none

/-- The string carried by a string value. -/
def jsonStrVal : Json → Option String
  | .str s => some s
  | _ => none

/-- The path `data?.errors?.[0]?.message`, when it reaches a string. -/
def errorsHeadMessageOf (j : Json) : Option String :=
  (((jsonField j "errors").bind jsonArrHead).bind fun e => jsonField e "message").bind
    jsonStrVal

/-- The path `data?.message`, when it reaches a string. -/
def messageFieldOf (j : Json) : Option String :=
  (jsonField j "message").bind jsonStrVal

/-- The `a || b || fallback` selection over possibly-absent strings, under JS
truthiness (absent and empty are skipped; the final fallback is returned
as-is). -/
def firstAvailable (a b : Option String) (fallback : String) : String :=
  if strTruthy a then a.getD "" else if strTruthy b then b.getD "" else fallback

/-- Outcome of the `try` block of `request`: a normal return or a thrown value. -/
inductive TryResult where
  | value (v : RequestResult)
  | thrown (e : ThrownValue)

/-- The substring the `catch` handler tests with `includes`. -/
def apiErrorTag : String := "Directus API error:"

/-- The `try` block of `request`: on a non-success status, parse an error body
(`.catch(() => ({}))` turns a parse failure into `{}`), pick the best message,
and throw the prefixed `Error`; on 204 return the success marker without
touching the body; otherwise return the parsed body, a parse failure being a
thrown `SyntaxError`. -/
def requestTry (outcome : FetchOutcome) : TryResult :=
  match outcome with
  | .thrown e => .thrown e
  | .response status statusText body =>
    if ¬(200 ≤ status ∧ status ≤ 299) then
      let errorData := match body with | .ok parsed => parsed | .error _ => Json.obj []
      let errorMessage :=
        firstAvailable (errorsHeadMessageOf errorData) (messageFieldOf errorData) statusText
      .thrown { message := some ("Directus API error: " ++ errorMessage)
                stringRep := "Error: Directus API error: " ++ errorMessage }
    else if status = 204 then .value .okSuccessMarker
    else
      match body with
      | .ok parsed => .value (.ok parsed)
      | .error parseMsg =>
        .thrown { message := some parseMsg, stringRep := "SyntaxError: " ++ parseMsg }

/-- The `catch` handler of `request`: reading `error.message.includes(...)` on
a thrown value without a string `message` raises a `TypeError` that escapes
the handler; a message already containing the tag is rethrown as-is; anything
else is re-wrapped through the `errors[0].message || message || String(error)`
selection. -/
def requestCatch (e : ThrownValue) : RequestResult :=
  match e.message with
  | none => .crash "TypeError: Cannot read properties of undefined (reading 'includes')"
  | some m =>
    if strContains m apiErrorTag then .error m
    else .error ("Directus API error: " ++ firstAvailable e.errorsHeadMessage (some m) e.stringRep)

/-- Model of one `DirectusClient.request` call, as a function of the single
transport outcome it consumes. -/
def request (outcome : FetchOutcome) : RequestResult :=
  match requestTry outcome with
  | .value v => v
  | .thrown e => requestCatch e

/-! ## Tool wrapper factories (`tool-helpers.ts`) -/

/-- One entry of a tool result's `content` array. -/
structure ContentBlock where
  type : String
  text : String
deriving DecidableEq, Repr

/-- The fixed response envelope both wrappers produce. -/
structure ToolResult where
  content : List ContentBlock
deriving DecidableEq, Repr

/-- The configuration record `createTool` receives. `Client`, `Schema` and
`Err` are opaque: the wrapper never inspects the client, the schema or a
rejection value. Arguments are JSON values; the handler's promise is an
`Except`. -/
structure ToolDefinition (Client Schema Err : Type) where
  name : String
  description : String
  inputSchema : Schema
  toolsets : List Toolset
  handler : Client → Json → Except Err Json

/-- The tool descriptor both factories return. -/
structure WrappedTool (Client Schema Err : Type) where
  name : String
  description : String
  inputSchema : Schema
  toolsets : List Toolset
  handler : Client → Json → Except Err ToolResult

/-- Model of `createTool`: metadata passes through; the wrapped handler awaits
the inner handler and wraps its resolved value, pretty-printed with 2-space
indentation, in a single text content block. A rejection of the inner handler
propagates through `Except.map` untouched. -/
def createTool {Client Schema Err : Type} (config : ToolDefinition Client Schema Err) :
    WrappedTool Client Schema Err :=
  { name := config.name
    description := config.description
    inputSchema := config.inputSchema
    toolsets := config.toolsets
    handler := fun client args =>
      (config.handler client args).map fun result =>
        { content := [{ type := "text", text := jsonStringify2 result }] } }

/-- The configuration record `createActionTool` receives: additionally a
`successMessage` function of the arguments. -/
structure ActionToolDefinition (Client Schema Err : Type) where
  name : String
  description : String
  inputSchema : Schema
  toolsets : List Toolset
  handler : Client → Json → Except Err Json
  successMessage : Json → String

/-- Model of `createActionTool`: the wrapped handler awaits the inner handler,
ignores its resolved value, and wraps `successMessage(args)` in a single text
content block; a rejection propagates and the message function is never
consulted. -/
def createActionTool {Client Schema Err : Type}
    (config : ActionToolDefinition Client Schema Err) : WrappedTool Client Schema Err :=
  { name := config.name
    description := config.description
    inputSchema := config.inputSchema
    toolsets := config.toolsets
    handler := fun client args =>
      (config.handler client args).map fun _ =>
        { content := [{ type := "text", text := config.successMessage args }] } }

/-! ## The query encoder (`DirectusClient.buildQueryString`) -/

/-- A value that is either an array of strings or a plain string: the code
distinguishes them with `Array.isArray` for `fields`, `sort` and `groupBy`. -/
inductive StrOrList where
  | str (s : String)
  | list (xs : List String)

/-- Model of `Array.prototype.join(',')`. -/
def joinCommaList : List String → String
  | [] => ""
  | [s] => s
  | s :: rest => s ++ "," ++ joinCommaList rest

/-- The string an array-or-string parameter contributes: arrays are
comma-joined, strings pass through. -/
def joinComma : StrOrList → String
  | .str s => s
  | .list xs => joinCommaList xs

/-- JS truthiness of a JSON value (`NaN` aside, which `Json` does not model). -/
def jsTruthyJson : Json → Bool
  | .null => false
  | .bool b => b
  | .num n => n ≠ 0
  | .str s => s ≠ ""
  | .arr _ => true
  | .obj _ => true

/-- JS truthiness of a possibly-absent array-or-string value: an array is
truthy even when empty; a string must be non-empty. -/
def truthySL : Option StrOrList → Bool
  | none => false
  | some (.str s) => s ≠ ""
  | some (.list _) => true

/-- The supported query parameter bag (`QueryParams` plus the `export` key the
schema-snapshot path uses). `none` models an absent / `undefined` field. -/
structure QueryParams where
  fields : Option StrOrList := none
  filter : Option Json := none
  search : Option String := none
  sort : Option StrOrList := none
  limit : Option Int := none
  offset : Option Int := none
  page : Option Int := none
  aggregate : Option Json := none
  groupBy : Option StrOrList := none
  deep : Option Json := none
  meta : Option String := none
  «export» : Option String := none

/-- Contribution of one `if (params.k) append(k, Array.isArray(v) ? v.join(',')
: v)` gate: the truthiness test applies to the raw value, before joining. -/
def slPairs (key : String) : Option StrOrList → List (String × String)
  | some (.str s) => if s = "" then [] else [(key, s)]
  | some (.list xs) => [(key, joinCommaList xs)]
  | none => []

/-- Contribution of one `if (params.k) append(k, JSON.stringify(v))` gate. -/
def jsonPairs (key : String) : Option Json → List (String × String)
  | some j => if jsTruthyJson j then [(key, jsonStringify j)] else []
  | none => []

/-- Contribution of one `if (params.k) append(k, v)` gate on a string value. -/
def strPairs (key : String) : Option String → List (String × String)
  | some s => if s = "" then [] else [(key, s)]
  | none => []

/-- Contribution of one `if (params.k !== undefined) append(k, String(v))`
gate: any present number is emitted, including `0`. -/
def numPairs (key : String) : Option Int → List (String × String)
  | some n => [(key, ⟨intChars n⟩)]
  | none => []

/-- The key/value pairs `buildQueryString` appends, in source order. -/
def emittedPairs (p : QueryParams) : List (String × String) :=
  slPairs "fields" p.fields ++ jsonPairs "filter" p.filter
    ++ strPairs "search" p.search ++ slPairs "sort" p.sort
    ++ numPairs "limit" p.limit ++ numPairs "offset" p.offset
    ++ numPairs "page" p.page ++ jsonPairs "aggregate" p.aggregate
    ++ slPairs "groupBy" p.groupBy ++ jsonPairs "deep" p.deep
    ++ strPairs "meta" p.meta ++ strPairs "export" p.«export»

/-- Characters the `application/x-www-form-urlencoded` serializer leaves
unescaped: ASCII alphanumerics and `*`, `-`, `.`, `_`. -/
def isFormSafe (c : Char) : Bool :=
  ('0' ≤ c && c ≤ '9') || ('A' ≤ c && c ≤ 'Z') || ('a' ≤ c && c ≤ 'z')
    || c = '*' || c = '-' || c = '.' || c = '_'

/-- Uppercase hexadecimal digit, as the urlencoded serializer emits. -/
def hexUpperCh (n : Nat) : Char :=
  if n < 10 then Char.ofNat ('0'.toNat + n) else Char.ofNat ('A'.toNat + (n - 10))

/-- UTF-8 bytes of a code point. -/
def utf8Bytes (n : Nat) : List Nat :=
  if n < 0x80 then [n]
  else if n < 0x800 then [0xC0 + n / 0x40, 0x80 + n % 0x40]
  else if n < 0x10000 then [0xE0 + n / 0x1000, 0x80 + n / 0x40 % 0x40, 0x80 + n % 0x40]
  else [0xF0 + n / 0x40000, 0x80 + n / 0x1000 % 0x40, 0x80 + n / 0x40 % 0x40, 0x80 + n % 0x40]

/-- A percent-escape `%XX` for one byte. -/
def pctByte (b : Nat) : List Char := ['%', hexUpperCh (b / 16), hexUpperCh (b % 16)]

/-- One character as `URLSearchParams.toString()` serializes it: space becomes
`+`, safe characters pass through, everything else is the percent-escaped
UTF-8 byte sequence. -/
def formEncodeChar (c : Char) : List Char :=
  if c = ' ' then ['+']
  else if isFormSafe c then [c]
  else (utf8Bytes c.toNat).flatMap pctByte

/-- Urlencoded serialization of a string. -/
def formEncode (s : String) : List Char := s.data.flatMap formEncodeChar

/-- `key=value` pieces joined with `&`. -/
def joinWithAmp : List (List Char) → List Char
  | [] => []
  | [x] => x
  | x :: rest => x ++ '&' :: joinWithAmp rest

/-- Model of `buildQueryString`: serialize the appended pairs, and prefix `?`
exactly when the serialized query is non-empty. -/
def buildQueryString (p : QueryParams) : String :=
  let query :=
    joinWithAmp ((emittedPairs p).map fun kv => formEncode kv.1 ++ '=' :: formEncode kv.2)
  if query = [] then "" else ⟨'?' :: query⟩

/-! ## The spec-side parse-back procedure

The decoders below follow the specification's testing procedure for the
query-encoder round-trip: split the query string on `&` and `=`,
percent-decode each component, and JSON-parse the JSON-valued entries. They
are verification apparatus, not part of the program. -/

/-- Value of one hexadecimal digit character (either case). -/
def hexVal (c : Char) : Option Nat :=
  if c.isDigit then some (c.toNat - '0'.toNat)
  else if 'A' ≤ c ∧ c ≤ 'F' then some (10 + (c.toNat - 'A'.toNat))
  else if 'a' ≤ c ∧ c ≤ 'f' then some (10 + (c.toNat - 'a'.toNat))
  else none

/-- Value of a two-digit hexadecimal byte. -/
def hex2 (h l : Char) : Option Nat := do
  let hv ← hexVal h
  let lv ← hexVal l
  some (16 * hv + lv)

/-- Read one `%XX` escape from the front of the input. -/
def readPctByte : List Char → Option (Nat × List Char)
  | '%' :: h :: l :: rest => (hex2 h l).map fun b => (b, rest)
  | _ => none

/-- Percent-decoding with fuel (one unit per decoded character): `+` becomes
space, a `%`-escape run is decoded as a UTF-8 byte sequence (the leading byte
determining how many continuation bytes follow), and any other character
stands for itself. -/
def pctDecodeF : Nat → List Char → Option (List Char)
  | 0, _ => none
  | _ + 1, [] => some []
  | fuel + 1, c :: rest =>
    if c = '+' then (pctDecodeF fuel rest).map (' ' :: ·)
    else if c = '%' then
      match readPctByte (c :: rest) with
      | none => none
      | some (b0, rest2) =>
        if b0 < 0x80 then (pctDecodeF fuel rest2).map (Char.ofNat b0 :: ·)
        else if b0 < 0xC0 then none
        else if b0 < 0xE0 then
          match readPctByte rest2 with
          | none => none
          | some (b1, rest3) =>
            if 0x80 ≤ b1 ∧ b1 < 0xC0 then
              (pctDecodeF fuel rest3).map (Char.ofNat ((b0 - 0xC0) * 0x40 + (b1 - 0x80)) :: ·)
            else none
        else if b0 < 0xF0 then
          match readPctByte rest2 with
          | none => none
          | some (b1, rest3) =>
            match readPctByte rest3 with
            | none => none
            | some (b2, rest4) =>
              if (0x80 ≤ b1 ∧ b1 < 0xC0) ∧ (0x80 ≤ b2 ∧ b2 < 0xC0) then
                (pctDecodeF fuel rest4).map
                  (Char.ofNat ((b0 - 0xE0) * 0x1000 + (b1 - 0x80) * 0x40 + (b2 - 0x80)) :: ·)
              else none
        else if b0 < 0xF8 then
          match readPctByte rest2 with
          | none => none
          | some (b1, rest3) =>
            match readPctByte rest3 with
            | none => none
            | some (b2, rest4) =>
              match readPctByte rest4 with
              | none => none
              | some (b3, rest5) =>
                if (0x80 ≤ b1 ∧ b1 < 0xC0) ∧ (0x80 ≤ b2 ∧ b2 < 0xC0)
                    ∧ (0x80 ≤ b3 ∧ b3 < 0xC0) then
                  (pctDecodeF fuel rest5).map
                    (Char.ofNat
                      ((b0 - 0xF0) * 0x40000 + (b1 - 0x80) * 0x1000
                        + (b2 - 0x80) * 0x40 + (b3 - 0x80)) :: ·)
                else none
        else none
    else (pctDecodeF fuel rest).map (c :: ·)

/-- Percent-decoding of a string. -/
def pctDecode (s : String) : Option String :=
  (pctDecodeF (s.data.length + 1) s.data).map fun cs => ⟨cs⟩

/-- Decode one `key=value` piece: split on `=` into exactly a key and a
value, percent-decode both. -/
def decodePiece (piece : List Char) : Option (String × String) :=
  match splitOnChar '=' piece with
  | [k, v] => do
    let dk ← pctDecode ⟨k⟩
    let dv ← pctDecode ⟨v⟩
    some (dk, dv)
  | _ => none

/-- Decode every piece, failing if any piece fails. -/
def decodePieces : List (List Char) → Option (List (String × String))
  | [] => some []
  | p :: ps =>
    match decodePiece p with
    | none => none
    | some kv => (decodePieces ps).map (kv :: ·)

/-- The parse-back procedure: strip the leading `?`, split on `&`, decode each
`key=value` piece. The empty string carries no pairs. -/
def decodeQuery (s : String) : Option (List (String × String)) :=
  match s.data with
  | [] => some []
  | '?' :: rest => decodePieces (splitOnChar '&' rest)
  | _ => none

/-- Decimal digit test. -/
def isDigitCh (c : Char) : Bool := '0' ≤ c && c ≤ '9'

/-- Longest digit run at the front of the input, and the remainder. -/
def takeDigitsCh : List Char → List Char × List Char
  | [] => ([], [])
  | c :: cs =>
    if isDigitCh c then
      match takeDigitsCh cs with
      | (ds, r) => (c :: ds, r)
    else ([], c :: cs)

/-- Numeric value of a digit run. -/
def digitsNatVal (ds : List Char) : Nat :=
  ds.foldl (fun acc c => 10 * acc + (c.toNat - '0'.toNat)) 0

/-- Parse a non-empty digit run into a natural number. -/
def parseJNat (cs : List Char) : Option (Nat × List Char) :=
  let (ds, r) := takeDigitsCh cs
  if ds = [] then none else some (digitsNatVal ds, r)

/-- Value of a four-digit hexadecimal escape payload. -/
def hex4Val (a b c d : Char) : Option Nat := do
  let va ← hexVal a
  let vb ← hexVal b
  let vc ← hexVal c
  let vd ← hexVal d
  some (((va * 16 + vb) * 16 + vc) * 16 + vd)

/-- The single-character JSON escapes. -/
def unescapeJ (e : Char) : Option Char :=
  if e = '"' then some '"'
  else if e = '\\' then some '\\'
  else if e = '/' then some '/'
  else if e = 'b' then some '\x08'
  else if e = 't' then some '\t'
  else if e = 'n' then some '\n'
  else if e = 'f' then some '\x0c'
  else if e = 'r' then some '\r'
  else none

/-- Parse the body of a JSON string literal after its opening quote,
accumulating decoded characters in reverse (fuel: one unit per decoded
character). -/
def parseJStrAuxF : Nat → List Char → List Char → Option (String × List Char)
  | 0, _, _ => none
  | _ + 1, _, [] => none
  | fuel + 1, acc, c :: r =>
    if c = '"' then some (⟨acc.reverse⟩, r)
    else if c = '\\' then
      match r with
      | [] => none
      | e :: r2 =>
        if e = 'u' then
          match r2 with
          | h1 :: h2 :: h3 :: h4 :: r3 =>
            (match hex4Val h1 h2 h3 h4 with
             | some n => parseJStrAuxF fuel (Char.ofNat n :: acc) r3
             | none => none)
          | _ => none
        else
          match unescapeJ e with
          | some ch => parseJStrAuxF fuel (ch :: acc) r2
          | none => none
    else parseJStrAuxF fuel (c :: acc) r

mutual
/-- Parse one JSON value (compact grammar, as `JSON.stringify` emits: no
whitespace, integer numbers), with fuel. -/
def parseJVal : Nat → List Char → Option (Json × List Char)
  | 0, _ => none
  | _ + 1, [] => none
  | fuel + 1, c :: r =>
    if c = 'n' then
      match r with
      | 'u' :: 'l' :: 'l' :: r2 => some (.null, r2)
      | _ => none
    else if c = 't' then
      match r with
      | 'r' :: 'u' :: 'e' :: r2 => some (.bool true, r2)
      | _ => none
    else if c = 'f' then
      match r with
      | 'a' :: 'l' :: 's' :: 'e' :: r2 => some (.bool false, r2)
      | _ => none
    else if c = '"' then (parseJStrAuxF fuel [] r).map fun sr => (.str sr.1, sr.2)
    else if c = '[' then
      match r with
      | [] => none
      | c2 :: r2 =>
        if c2 = ']' then some (.arr [], r2)
        else (parseJElems fuel (c2 :: r2)).map fun er => (.arr er.1, er.2)
    else if c = '{' then
      match r with
      | [] => none
      | c2 :: r2 =>
        if c2 = '}' then some (.obj [], r2)
        else (parseJMembers fuel (c2 :: r2)).map fun mr => (.obj mr.1, mr.2)
    else if c = '-' then (parseJNat r).map fun nr => (.num (-(nr.1 : Int)), nr.2)
    else if isDigitCh c then (parseJNat (c :: r)).map fun nr => (.num (nr.1 : Int), nr.2)
    else none
/-- Parse one or more comma-separated elements up to the closing bracket. -/
def parseJElems : Nat → List Char → Option (List Json × List Char)
  | 0, _ => none
  | fuel + 1, cs =>
    match parseJVal fuel cs with
    | none => none
    | some (v, r) =>
      match r with
      | [] => none
      | c2 :: r2 =>
        if c2 = ',' then (parseJElems fuel r2).map fun er => (v :: er.1, er.2)
        else if c2 = ']' then some ([v], r2)
        else none
/-- Parse one or more comma-separated members up to the closing brace. -/
def parseJMembers : Nat → List Char → Option (List (String × Json) × List Char)
  | 0, _ => none
  | fuel + 1, cs =>
    match cs with
    | [] => none
    | c :: r =>
      if c = '"' then
        match parseJStrAuxF fuel [] r with
        | none => none
        | some (key, r1) =>
          match r1 with
          | [] => none
          | c2 :: r2 =>
            if c2 = ':' then
              match parseJVal fuel r2 with
              | none => none
              | some (v, r3) =>
                match r3 with
                | [] => none
                | c3 :: r4 =>
                  if c3 = ',' then
                    (parseJMembers fuel r4).map fun mr => ((key, v) :: mr.1, mr.2)
                  else if c3 = '}' then some ([(key, v)], r4)
                  else none
            else none
      else none
end

/-- Parse a complete compact JSON document. -/
def jsonParse (s : String) : Option Json :=
  match parseJVal (s.data.length + 1) s.data with
  | some (j, []) => some j
  | _ => none

/-! ## Concrete fixtures used by witnesses and counterexamples -/

/-- The valid tokens a configuration string contributes: `none` contributes
nothing (`!envValue` short-circuits), a string contributes its validated
tokens. Used to state the toolset-filter property. -/
def requestedValidTokens : Option String → List Toolset
  | none => []
  | some s => validatedToolsets s

/-- Scenario A, tool `X`: member of `default` and `schema`. -/
def toolX : ToolMeta := { name := "X", toolsets := some [.default, .schema] }

/-- Scenario A, tool `Y`: member of `default` only. -/
def toolY : ToolMeta := { name := "Y", toolsets := some [.default] }

/-- Scenario C response body: `{"errors":[{"message":"Not found"}]}`. -/
def notFoundBody : Json :=
  .obj [("errors", .arr [.obj [("message", .str "Not found")]])]

/-- A data-tool definition whose handler resolves to `{"a":1}`. -/
def sampleToolDef : ToolDefinition Unit Unit String :=
  { name := "list_collections"
    description := "List all collections"
    inputSchema := ()
    toolsets := [.default, .collections]
    handler := fun _ _ => .ok (.obj [("a", .num 1)]) }

/-- An action-tool definition whose handler resolves. -/
def sampleActionDef : ActionToolDefinition Unit Unit String :=
  { name := "delete_collection"
    description := "Delete a collection"
    inputSchema := ()
    toolsets := [.default, .collections]
    handler := fun _ _ => .ok .null
    successMessage := fun args => "Deleted " ++ ((jsonStrVal args).getD "collection") }

/-- An action-tool definition whose handler rejects. -/
def sampleFailingActionDef : ActionToolDefinition Unit Unit String :=
  { name := "delete_collection"
    description := "Delete a collection"
    inputSchema := ()
    toolsets := [.default, .collections]
    handler := fun _ _ => .error "Directus API error: Forbidden"
    successMessage := fun _ => "unreachable" }

/-- Scenario D parameter bag:
`{fields: ["id","title"], limit: 10, filter: {status: {_eq: "published"}}}`. -/
def scenarioDParams : QueryParams :=
  { fields := some (.list ["id", "title"])
    limit := some 10
    filter := some (.obj [("status", .obj [("_eq", .str "published")])]) }

/-- The keys `buildQueryString` emits, in order. -/
def emittedKeys (p : QueryParams) : List String := (emittedPairs p).map Prod.fst

/-- One entry of the expected decoded content: the key with its original
representation, present exactly when the parameter is present. -/
def presentPair {α : Type} (key : String) (v : Option α) (render : α → String) :
    List (String × String) :=
  match v with
  | some x => [(key, render x)]
  | none => []

/-- The expected decoded content of an encoded parameter bag, per the
round-trip property: every present key, array-valued keys carrying their
comma-joined representation, JSON-valued keys their serialization, numbers
their decimal form, plain strings themselves. -/
def presentPairs (p : QueryParams) : List (String × String) :=
  presentPair "fields" p.fields joinComma
    ++ presentPair "filter" p.filter jsonStringify
    ++ presentPair "search" p.search id
    ++ presentPair "sort" p.sort joinComma
    ++ presentPair "limit" p.limit (fun n => ⟨intChars n⟩)
    ++ presentPair "offset" p.offset (fun n => ⟨intChars n⟩)
    ++ presentPair "page" p.page (fun n => ⟨intChars n⟩)
    ++ presentPair "aggregate" p.aggregate jsonStringify
    ++ presentPair "groupBy" p.groupBy joinComma
    ++ presentPair "deep" p.deep jsonStringify
    ++ presentPair "meta" p.meta id
    ++ presentPair "export" p.«export» id

/-! # Theorems -/

/-! ## String-search helper lemmas -/

theorem listStarts_append (p r : List Char) : listStarts p (p ++ r) = true := by
  induction p with
  | nil => rfl
  | cons c cs ih => simp [listStarts, ih]

theorem listHasInside_of_starts {p cs : List Char} (h : listStarts p cs = true) :
    listHasInside p cs = true := by
  cases cs with
  | nil =>
    cases p with
    | nil => rfl
    | cons a l => simp [listStarts] at h
  | cons c t => simp [listHasInside, h]

theorem strContains_apiTag (x : String) :
    strContains ("Directus API error: " ++ x) apiErrorTag = true := by
  have h1 : ("Directus API error: ").data = apiErrorTag.data ++ [' '] := rfl
  have hdata : ("Directus API error: " ++ x).data = apiErrorTag.data ++ (' ' :: x.data) := by
    rw [String.data_append, h1, List.append_assoc]
    rfl
  unfold strContains
  rw [hdata]
  exact listHasInside_of_starts (listStarts_append _ _)

/-! ## C9: credential check at construction -/

/-- C9: constructing the client succeeds exactly when a (truthy) static token
is supplied, or both a (truthy) email and password are; otherwise
`initializeClient` — run synchronously by the constructor, before any network
activity — throws the configuration error. -/
theorem initializeClient_config_check (config : DirectusConfig) :
    (initializeClient config).isOk = true ↔
      (strTruthy config.token = true ∨
        (strTruthy config.email = true ∧ strTruthy config.password = true)) := by
  unfold initializeClient
  by_cases ht : strTruthy config.token = true
  · simp [ht, Except.isOk, Except.toBool]
  · by_cases he : strTruthy config.email = true <;>
      by_cases hp : strTruthy config.password = true <;>
        simp [ht, he, hp, Except.isOk, Except.toBool]

/-! ## C5: 204 No Content -/

/-- C5: a 204 response resolves to the synthetic `{ success: true }` marker
for every body — including a body that would fail to parse — because the
marker is returned before any body parsing is attempted. -/
theorem request_204 (statusText : String) (body : Except String Json) :
    request (.response 204 statusText body) = .okSuccessMarker := by
  simp [request, requestTry]

/-! ## C3: non-success responses -/

/-- C3: every non-success response rejects with the fixed `Directus API
error: ` prefix followed by the first available (truthy) candidate among the
remote `errors[0].message`, the remote top-level `message`, and the HTTP
status text; the rejection always reaches the caller, and the model consumes
exactly one transport outcome, so nothing is retried. -/
theorem request_non_success (status : Nat) (statusText : String) (body : Except String Json)
    (h : ¬(200 ≤ status ∧ status ≤ 299)) :
    request (.response status statusText body) =
      .error ("Directus API error: " ++
        firstAvailable
          (errorsHeadMessageOf (match body with | .ok b => b | .error _ => Json.obj []))
          (messageFieldOf (match body with | .ok b => b | .error _ => Json.obj []))
          statusText) := by
  simp only [request, requestTry, if_pos h]
  simp only [requestCatch]
  rw [if_pos (strContains_apiTag _)]

/-- Witness for C3: scenario C, a 404 with body
`{"errors":[{"message":"Not found"}]}` rejects with exactly `Not found` after
the prefix. -/
theorem request_non_success_witness :
    request (.response 404 "Not Found" (.ok notFoundBody)) =
      .error ("Directus API error: " ++ "Not found") := by
  rw [request_non_success 404 "Not Found" (.ok notFoundBody) (by omega)]
  rfl

/-! ## C4: transport-level failures -/

/-- C4 counterexample: a thrown value that is not an `Error` (here a plain
string, whose `message` property is `undefined`) makes the catch handler
itself fail with a `TypeError`, so the caller's rejection is not the
re-wrapped `Directus API error: ...` contract the claim asserts for every
thrown value. -/
theorem request_transport_counterexample :
    request (.thrown { stringRep := "boom" }) =
        .crash "TypeError: Cannot read properties of undefined (reading 'includes')" ∧
      ∀ msg, request (.thrown { stringRep := "boom" }) ≠ .error msg := by
  refine ⟨rfl, fun msg h => ?_⟩
  simp [request, requestTry, requestCatch] at h

/-- C4 amended: for a thrown value carrying a string `message`, a message
containing `Directus API error:` anywhere is rethrown unchanged, and any
other is re-wrapped as `Directus API error: ` plus the first available of
`errors[0].message`, `message`, `String(error)`; a thrown value without a
string `message` property instead makes a `TypeError` escape the handler, so
no `Error`-style rejection reaches the caller at all. -/
theorem request_transport_amended (e : ThrownValue) :
    (∀ m, e.message = some m → strContains m apiErrorTag = true →
      request (.thrown e) = .error m) ∧
    (∀ m, e.message = some m → strContains m apiErrorTag = false →
      request (.thrown e) =
        .error ("Directus API error: " ++
          firstAvailable e.errorsHeadMessage (some m) e.stringRep)) ∧
    (e.message = none → ∀ msg, request (.thrown e) ≠ .error msg) := by
  refine ⟨fun m hm hc => ?_, fun m hm hc => ?_, fun hm msg h => ?_⟩
  · simp only [request, requestTry, requestCatch, hm, if_pos hc]
  · simp only [request, requestTry, requestCatch, hm, if_neg (by simp [hc] :
      ¬(strContains m apiErrorTag = true))]
  · simp only [request, requestTry, requestCatch, hm] at h
    cases h

/-- Witness for C4 amended: a rethrown already-wrapped message, a re-wrapped
plain `Error`, and an escaping `TypeError` for a thrown plain string. -/
theorem request_transport_amended_witness :
    request (.thrown { message := some "Directus API error: Not found"
                       stringRep := "Error: Directus API error: Not found" }) =
        .error "Directus API error: Not found" ∧
      request (.thrown { message := some "ECONNREFUSED"
                         stringRep := "Error: ECONNREFUSED" }) =
        .error ("Directus API error: " ++
          firstAvailable none (some "ECONNREFUSED") "Error: ECONNREFUSED") ∧
      request (.thrown { stringRep := "boom2" }) ≠ .error "boom2" := by
  refine ⟨?_, ?_, ?_⟩
  · exact (request_transport_amended _).1 _ rfl (by decide)
  · exact (request_transport_amended _).2.1 _ rfl (by decide)
  · exact (request_transport_amended _).2.2 rfl _

/-! ## C7: the data-tool wrapper -/

/-- C7: a tool produced by `createTool` keeps `name`, `description`,
`inputSchema` and `toolsets` unchanged, and when the inner handler resolves to
`V`, its handler resolves to a single `text` content block whose text is
`JSON.stringify(V, null, 2)`. -/
theorem createTool_behavior {Client Schema Err : Type}
    (config : ToolDefinition Client Schema Err) (client : Client) (args : Json) (v : Json)
    (h : config.handler client args = .ok v) :
    (createTool config).handler client args =
        .ok { content := [{ type := "text", text := jsonStringify2 v }] } ∧
      (createTool config).name = config.name ∧
      (createTool config).description = config.description ∧
      (createTool config).inputSchema = config.inputSchema ∧
      (createTool config).toolsets = config.toolsets := by
  refine ⟨?_, rfl, rfl, rfl, rfl⟩
  simp [createTool, h, Except.map]

/-- Witness for C7: the sample definition resolving to `{"a":1}` produces the
pretty-printed text block. -/
theorem createTool_behavior_witness :
    (createTool sampleToolDef).handler () .null =
        .ok { content := [{ type := "text", text := "\x7b\n  \"a\": 1\n\x7d" }] } ∧
      (createTool sampleToolDef).name = "list_collections" := by
  have h := createTool_behavior sampleToolDef () .null (.obj [("a", .num 1)]) rfl
  refine ⟨h.1.trans ?_, h.2.1⟩
  simp [jsonStringify2, renderJP, renderJPMember, renderJPMembersTail, renderJStr,
    escapeJChar, intChars, natChars, natCharsAux, indentChars, List.replicate]

/-! ## C8: the action-tool wrapper -/

/-- C8: a tool produced by `createActionTool` resolves — when the inner
handler resolves — to a single text block carrying `successMessage(args)`
applied to the original arguments; when the inner handler rejects, the
rejection propagates unchanged and the result does not depend on
`successMessage` at all (it is never invoked). -/
theorem createActionTool_behavior {Client Schema Err : Type}
    (config : ActionToolDefinition Client Schema Err) (client : Client) (args : Json) :
    (∀ u, config.handler client args = .ok u →
      (createActionTool config).handler client args =
        .ok { content := [{ type := "text", text := config.successMessage args }] }) ∧
    (∀ e, config.handler client args = .error e →
      (createActionTool config).handler client args = .error e ∧
      ∀ msg, (createActionTool { config with successMessage := msg }).handler client args =
        .error e) := by
  refine ⟨fun u h => ?_, fun e h => ⟨?_, fun msg => ?_⟩⟩
  · simp [createActionTool, h, Except.map]
  · simp [createActionTool, h, Except.map]
  · simp [createActionTool, h, Except.map]

/-- Witness for C8: the resolving sample yields its success message computed
from the arguments; the rejecting sample propagates its rejection unchanged,
with any success-message function. -/
theorem createActionTool_behavior_witness :
    (createActionTool sampleActionDef).handler () (.str "articles") =
        .ok { content := [{ type := "text", text := "Deleted articles" }] } ∧
      (createActionTool sampleFailingActionDef).handler () (.str "articles") =
        .error "Directus API error: Forbidden" ∧
      (createActionTool
          { sampleFailingActionDef with successMessage := fun _ => "other" }).handler ()
          (.str "articles") =
        .error "Directus API error: Forbidden" := by
  refine ⟨?_, ?_, ?_⟩
  · exact (createActionTool_behavior sampleActionDef () (.str "articles")).1 _ rfl
  · exact ((createActionTool_behavior sampleFailingActionDef () (.str "articles")).2 _ rfl).1
  · exact ((createActionTool_behavior sampleFailingActionDef () (.str "articles")).2 _ rfl).2 _

/-! ## C1: the toolset parser -/

theorem allSpace_of_trimChars_nil {cs : List Char} (h : trimChars cs = []) :
    ∀ c ∈ cs, isJsSpace c = true := by
  unfold trimChars at h
  rw [List.reverse_eq_nil_iff, List.dropWhile_eq_nil_iff] at h
  intro c hc
  rw [← List.takeWhile_append_dropWhile (p := isJsSpace) (l := cs)] at hc
  rcases List.mem_append.mp hc with h1 | h2
  · exact List.mem_takeWhile_imp h1
  · exact h c (List.mem_reverse.mpr h2)

theorem splitOnChar_of_not_mem {sep : Char} {cs : List Char} (h : sep ∉ cs) :
    splitOnChar sep cs = [cs] := by
  induction cs with
  | nil => rfl
  | cons c t ih =>
    have hc : ¬(c = sep) := fun hh => h (hh ▸ List.mem_cons_self c t)
    have ht := ih fun hm => h (List.mem_cons_of_mem _ hm)
    simp [splitOnChar, hc, ht]

theorem validatedToolsets_of_trim_empty {s : String} (h : jsTrim s = "") :
    validatedToolsets s = [] := by
  have hnil : trimChars s.data = [] := by
    have hd := congrArg String.data h
    simpa [jsTrim] using hd
  have hsp := allSpace_of_trimChars_nil hnil
  have hnc : ',' ∉ s.data := fun hm => by simpa [isJsSpace] using hsp ',' hm
  unfold validatedToolsets
  rw [splitOnChar_of_not_mem hnc]
  simp [hnil]

/-- C1: the toolset parser splits on commas, trims, lowercases, and keeps only
recognized non-empty tokens (`requestedValidTokens`); when no valid token
remains — absent, blank, or entirely invalid configuration — the active set is
exactly `['default']`; when the catch-all tag is among the validated tokens
the active set collapses to `['all']`; and otherwise it is exactly the
validated tokens. -/
theorem parseToolsets_spec (envValue : Option String) :
    (requestedValidTokens envValue = [] → parseToolsets envValue = [.default]) ∧
    (Toolset.all ∈ requestedValidTokens envValue → parseToolsets envValue = [.all]) ∧
    (requestedValidTokens envValue ≠ [] → Toolset.all ∉ requestedValidTokens envValue →
      parseToolsets envValue = requestedValidTokens envValue) := by
  match envValue with
  | none => exact ⟨fun _ => rfl, fun h => absurd h (List.not_mem_nil _), fun h _ => absurd rfl h⟩
  | some s =>
    by_cases htrim : jsTrim s = ""
    · have hval := validatedToolsets_of_trim_empty htrim
      refine ⟨fun _ => ?_, fun h => ?_, fun h _ => ?_⟩
      · simp [parseToolsets, htrim]
      · rw [requestedValidTokens, hval] at h
        exact absurd h (List.not_mem_nil _)
      · rw [requestedValidTokens, hval] at h
        exact absurd rfl h
    · refine ⟨fun hemp => ?_, fun hall => ?_, fun hne hnall => ?_⟩
      · rw [requestedValidTokens] at hemp
        have hnall : Toolset.all ∉ validatedToolsets s := by
          rw [hemp]; exact List.not_mem_nil _
        simp [parseToolsets, htrim, hemp, hnall]
      · rw [requestedValidTokens] at hall
        simp [parseToolsets, htrim, hall]
      · rw [requestedValidTokens] at hne hnall ⊢
        simp [parseToolsets, htrim, hne, hnall]

/-- Witness for C1: an entirely invalid configuration defaults, a mixed
configuration with the catch-all tag collapses, and a plain valid
configuration passes through. -/
theorem parseToolsets_spec_witness :
    parseToolsets (some "bogus,junk") = [.default] ∧
      parseToolsets (some "schema, ALL ,content") = [.all] ∧
      parseToolsets (some " Schema ,content") = [.schema, .content] := by
  refine ⟨?_, ?_, ?_⟩
  · exact (parseToolsets_spec (some "bogus,junk")).1 (by decide)
  · exact (parseToolsets_spec (some "schema, ALL ,content")).2.1 (by decide)
  · exact (parseToolsets_spec (some " Schema ,content")).2.2 (by decide) (by decide)

/-! ## C2: the toolset filter -/

/-- C2: a tool is in the filtered list exactly when the catch-all tag is
active or its declared toolset membership meets the active set; in
particular, with active set `{schema}`, tool `X` (`{default, schema}`) is
exposed and tool `Y` (`{default}`) is not. -/
theorem filterTools_spec :
    (∀ (tools : List ToolMeta) (active : List Toolset) (tool : ToolMeta),
      tool ∈ filterToolsByToolsets tools active ↔
        tool ∈ tools ∧
          (Toolset.all ∈ active ∨
            ∃ ts, tool.toolsets = some ts ∧ ∃ t ∈ ts, t ∈ active)) ∧
    filterToolsByToolsets [toolX, toolY] [.schema] = [toolX] := by
  constructor
  · intro tools active tool
    unfold filterToolsByToolsets
    by_cases hall : Toolset.all ∈ active
    · simp [hall]
    · rw [if_neg hall, List.mem_filter]
      constructor
      · rintro ⟨hmem, hp⟩
        refine ⟨hmem, .inr ?_⟩
        cases hts : tool.toolsets with
        | none => rw [hts] at hp; cases hp
        | some ts =>
          rw [hts] at hp
          rcases List.any_eq_true.mp hp with ⟨t, htm, htd⟩
          exact ⟨ts, rfl, t, htm, of_decide_eq_true htd⟩
      · rintro ⟨hmem, hall2 | ⟨ts, hts, t, htm, hta⟩⟩
        · exact absurd hall2 hall
        · exact ⟨hmem, by rw [hts]; exact List.any_eq_true.mpr ⟨t, htm, decide_eq_true hta⟩⟩
  · decide

/-! ## C10: per-key presence gating in `buildQueryString` -/

theorem mem_map_fst_slPairs {k key : String} {v : Option StrOrList} :
    k ∈ (slPairs key v).map Prod.fst ↔ (k = key ∧ truthySL v = true) := by
  match v with
  | none => simp [slPairs, truthySL]
  | some (.str s) =>
    by_cases hs : s = "" <;> simp [slPairs, truthySL, hs]
  | some (.list xs) => simp [slPairs, truthySL]

theorem mem_map_fst_jsonPairs {k key : String} {v : Option Json} :
    k ∈ (jsonPairs key v).map Prod.fst ↔
      (k = key ∧ ∃ j, v = some j ∧ jsTruthyJson j = true) := by
  match v with
  | none => simp [jsonPairs]
  | some j =>
    by_cases hj : jsTruthyJson j = true <;> simp [jsonPairs, hj]

theorem mem_map_fst_strPairs {k key : String} {v : Option String} :
    k ∈ (strPairs key v).map Prod.fst ↔ (k = key ∧ strTruthy v = true) := by
  match v with
  | none => simp [strPairs, strTruthy]
  | some s =>
    by_cases hs : s = "" <;> simp [strPairs, strTruthy, hs]

theorem mem_map_fst_numPairs {k key : String} {v : Option Int} :
    k ∈ (numPairs key v).map Prod.fst ↔ (k = key ∧ v ≠ none) := by
  match v with
  | none => simp [numPairs]
  | some n => simp [numPairs]

/-- C10 counterexample: `fields: []` — whose comma-join is the empty string —
is emitted, not omitted: an array is truthy in JS even when empty, because the
truthiness gate tests the raw value before joining. -/
theorem buildQueryString_gating_counterexample :
    buildQueryString { fields := some (.list []) } = "?fields=" ∧
      "fields" ∈ emittedKeys { fields := some (.list []) } := by
  exact ⟨rfl, by decide⟩

/-- C10 amended: `limit`, `offset`, `page` are emitted exactly when present
(so `0` is emitted, e.g. as `limit=0`); `fields`, `filter`, `search`, `sort`,
`aggregate`, `groupBy`, `deep`, `meta` are emitted exactly when the raw value
is truthy — a present empty string, `null`, or other falsy value causes the
key to be omitted, but an array is always truthy (even empty, joining to an
empty value), since truthiness is tested before joining. -/
theorem buildQueryString_gating (p : QueryParams) :
    ("fields" ∈ emittedKeys p ↔ truthySL p.fields = true) ∧
    ("filter" ∈ emittedKeys p ↔ ∃ j, p.filter = some j ∧ jsTruthyJson j = true) ∧
    ("search" ∈ emittedKeys p ↔ strTruthy p.search = true) ∧
    ("sort" ∈ emittedKeys p ↔ truthySL p.sort = true) ∧
    ("limit" ∈ emittedKeys p ↔ p.limit ≠ none) ∧
    ("offset" ∈ emittedKeys p ↔ p.offset ≠ none) ∧
    ("page" ∈ emittedKeys p ↔ p.page ≠ none) ∧
    ("aggregate" ∈ emittedKeys p ↔ ∃ j, p.aggregate = some j ∧ jsTruthyJson j = true) ∧
    ("groupBy" ∈ emittedKeys p ↔ truthySL p.groupBy = true) ∧
    ("deep" ∈ emittedKeys p ↔ ∃ j, p.deep = some j ∧ jsTruthyJson j = true) ∧
    ("meta" ∈ emittedKeys p ↔ strTruthy p.meta = true) ∧
    (∀ n, p.limit = some n → ("limit", (⟨intChars n⟩ : String)) ∈ emittedPairs p) := by
  refine ⟨?_, ?_, ?_, ?_, ?_, ?_, ?_, ?_, ?_, ?_, ?_, fun n hn => ?_⟩
  rotate_left 11
  · simp [emittedPairs, hn, numPairs]
  all_goals
    simp only [emittedKeys, emittedPairs, List.map_append, List.mem_append,
      mem_map_fst_slPairs, mem_map_fst_jsonPairs, mem_map_fst_strPairs,
      mem_map_fst_numPairs]
    simp [numPairs]

/-- Witness for C10 amended: `limit: 0` is emitted as `limit=0`, an empty
`search` is dropped, and an empty `fields` array is kept. -/
theorem buildQueryString_gating_witness :
    ("limit" ∈ emittedKeys { limit := some 0 }) ∧
      ¬("search" ∈ emittedKeys { search := some "" }) ∧
      ("fields" ∈ emittedKeys { fields := some (.list []) }) ∧
      ("limit", "0") ∈ emittedPairs { limit := some 0 } := by
  refine ⟨?_, ?_, ?_, ?_⟩
  · exact (buildQueryString_gating { limit := some 0 }).2.2.2.2.1.mpr (by decide)
  · intro h
    have h2 := (buildQueryString_gating { search := some "" }).2.2.1.mp h
    simp [strTruthy] at h2
  · exact (buildQueryString_gating { fields := some (.list []) }).1.mpr (by decide)
  · have h4 := (buildQueryString_gating { limit := some 0 }).2.2.2.2.2.2.2.2.2.2.2 0 rfl
    simpa [intChars, natChars, natCharsAux] using h4

/-! ## C6 groundwork: the percent-encoding round-trip -/

theorem hexVal_hexUpperCh : ∀ d < 16, hexVal (hexUpperCh d) = some d := by decide

theorem hex2_roundtrip {b : Nat} (hb : b < 256) :
    hex2 (hexUpperCh (b / 16)) (hexUpperCh (b % 16)) = some b := by
  have h1 := hexVal_hexUpperCh (b / 16) (by omega)
  have h2 := hexVal_hexUpperCh (b % 16) (by omega)
  simp [hex2, h1, h2]
  omega

theorem pctByte_cons (b : Nat) (X : List Char) :
    pctByte b ++ X = '%' :: (hexUpperCh (b / 16) :: hexUpperCh (b % 16) :: X) := rfl

theorem readPctByte_pctByte {b : Nat} (hb : b < 256) (rest : List Char) :
    readPctByte (pctByte b ++ rest) = some (b, rest) := by
  simp [pctByte, readPctByte, hex2_roundtrip hb]

theorem charValid (c : Char) : c.toNat < 0xD800 ∨ (0xDFFF < c.toNat ∧ c.toNat < 0x110000) :=
  c.valid

theorem pctDecodeF_step (c : Char) (rest : List Char) (fuel : Nat) :
    pctDecodeF (fuel + 1) (formEncodeChar c ++ rest) =
      (pctDecodeF fuel rest).map (c :: ·) := by
  by_cases hsp : c = ' '
  · subst hsp
    simp [formEncodeChar, pctDecodeF]
  · by_cases hsafe : isFormSafe c = true
    · have hplus : ¬(c = '+') := fun h => by subst h; exact absurd hsafe (by decide)
      have hpct : ¬(c = '%') := fun h => by subst h; exact absurd hsafe (by decide)
      simp [formEncodeChar, hsp, hsafe, pctDecodeF, hplus, hpct]
    · have henc : formEncodeChar c = (utf8Bytes c.toNat).flatMap pctByte := by
        simp [formEncodeChar, hsp, hsafe]
      have hofn : Char.ofNat c.toNat = c := Char.ofNat_toNat c
      have hval := charValid c
      rcases Nat.lt_or_ge c.toNat 0x80 with h80 | h80
      · have hb : utf8Bytes c.toNat = [c.toNat] := by simp [utf8Bytes, h80]
        have hshape : formEncodeChar c ++ rest = pctByte c.toNat ++ rest := by
          rw [henc, hb]; simp
        rw [hshape, pctByte_cons]
        simp only [pctDecodeF, if_true]
        rw [← pctByte_cons, readPctByte_pctByte (by omega : c.toNat < 256)]
        simp [h80, hofn]
      · rcases Nat.lt_or_ge c.toNat 0x800 with h800 | h800
        · have hb : utf8Bytes c.toNat = [0xC0 + c.toNat / 0x40, 0x80 + c.toNat % 0x40] := by
            rw [utf8Bytes, if_neg (by omega), if_pos h800]
          have hshape : formEncodeChar c ++ rest
              = pctByte (0xC0 + c.toNat / 0x40) ++ (pctByte (0x80 + c.toNat % 0x40) ++ rest) := by
            rw [henc, hb]; simp
          rw [hshape, pctByte_cons]
          simp only [pctDecodeF, if_true]
          rw [← pctByte_cons, readPctByte_pctByte (by omega : 0xC0 + c.toNat / 0x40 < 256)]
          simp [readPctByte_pctByte (show 0x80 + c.toNat % 0x40 < 256 by omega),
            show ¬(0xC0 + c.toNat / 0x40 < 0x80) by omega,
            show ¬(0xC0 + c.toNat / 0x40 < 0xC0) by omega,
            show 0xC0 + c.toNat / 0x40 < 0xE0 by omega,
            show 0x80 ≤ 0x80 + c.toNat % 0x40 ∧ 0x80 + c.toNat % 0x40 < 0xC0 by omega]
          rw [show c.toNat / 64 * 64 + c.toNat % 64 = c.toNat from by omega, hofn]
        · rcases Nat.lt_or_ge c.toNat 0x10000 with h10000 | h10000
          · have hb : utf8Bytes c.toNat
                = [0xE0 + c.toNat / 0x1000, 0x80 + c.toNat / 0x40 % 0x40,
                   0x80 + c.toNat % 0x40] := by
              rw [utf8Bytes, if_neg (by omega), if_neg (by omega), if_pos h10000]
            have hshape : formEncodeChar c ++ rest
                = pctByte (0xE0 + c.toNat / 0x1000)
                    ++ (pctByte (0x80 + c.toNat / 0x40 % 0x40)
                      ++ (pctByte (0x80 + c.toNat % 0x40) ++ rest)) := by
              rw [henc, hb]; simp
            rw [hshape, pctByte_cons]
            simp only [pctDecodeF, if_true]
            rw [← pctByte_cons, readPctByte_pctByte (by omega : 0xE0 + c.toNat / 0x1000 < 256)]
            simp [readPctByte_pctByte (show 0x80 + c.toNat / 0x40 % 0x40 < 256 by omega),
              readPctByte_pctByte (show 0x80 + c.toNat % 0x40 < 256 by omega),
              show ¬(0xE0 + c.toNat / 0x1000 < 0x80) by omega,
              show ¬(0xE0 + c.toNat / 0x1000 < 0xC0) by omega,
              show ¬(0xE0 + c.toNat / 0x1000 < 0xE0) by omega,
              show 0xE0 + c.toNat / 0x1000 < 0xF0 by omega,
              show (0x80 ≤ 0x80 + c.toNat / 0x40 % 0x40 ∧ 0x80 + c.toNat / 0x40 % 0x40 < 0xC0)
                  ∧ 0x80 ≤ 0x80 + c.toNat % 0x40 ∧ 0x80 + c.toNat % 0x40 < 0xC0 by omega]
            rw [show c.toNat / 4096 * 4096 + c.toNat / 64 % 64 * 64 + c.toNat % 64
                = c.toNat from by omega, hofn]
          · have hb : utf8Bytes c.toNat
                = [0xF0 + c.toNat / 0x40000, 0x80 + c.toNat / 0x1000 % 0x40,
                   0x80 + c.toNat / 0x40 % 0x40, 0x80 + c.toNat % 0x40] := by
              rw [utf8Bytes, if_neg (by omega), if_neg (by omega), if_neg (by omega)]
            have hshape : formEncodeChar c ++ rest
                = pctByte (0xF0 + c.toNat / 0x40000)
                    ++ (pctByte (0x80 + c.toNat / 0x1000 % 0x40)
                      ++ (pctByte (0x80 + c.toNat / 0x40 % 0x40)
                        ++ (pctByte (0x80 + c.toNat % 0x40) ++ rest))) := by
              rw [henc, hb]; simp
            rw [hshape, pctByte_cons]
            simp only [pctDecodeF, if_true]
            rw [← pctByte_cons, readPctByte_pctByte (by omega : 0xF0 + c.toNat / 0x40000 < 256)]
            simp [readPctByte_pctByte (show 0x80 + c.toNat / 0x1000 % 0x40 < 256 by omega),
              readPctByte_pctByte (show 0x80 + c.toNat / 0x40 % 0x40 < 256 by omega),
              readPctByte_pctByte (show 0x80 + c.toNat % 0x40 < 256 by omega),
              show ¬(0xF0 + c.toNat / 0x40000 < 0x80) by omega,
              show ¬(0xF0 + c.toNat / 0x40000 < 0xC0) by omega,
              show ¬(0xF0 + c.toNat / 0x40000 < 0xE0) by omega,
              show ¬(0xF0 + c.toNat / 0x40000 < 0xF0) by omega,
              show 0xF0 + c.toNat / 0x40000 < 0xF8 by omega,
              show ((0x80 ≤ 0x80 + c.toNat / 0x1000 % 0x40 ∧ 0x80 + c.toNat / 0x1000 % 0x40 < 0xC0)
                  ∧ 0x80 ≤ 0x80 + c.toNat / 0x40 % 0x40 ∧ 0x80 + c.toNat / 0x40 % 0x40 < 0xC0)
                  ∧ 0x80 ≤ 0x80 + c.toNat % 0x40 ∧ 0x80 + c.toNat % 0x40 < 0xC0 by omega]
            rw [show c.toNat / 0x40000 * 0x40000 + c.toNat / 4096 % 64 * 4096
                  + c.toNat / 64 % 64 * 64 + c.toNat % 64
                = c.toNat from by omega, hofn]

theorem pctDecodeF_encode (cs : List Char) :
    ∀ fuel, cs.length < fuel → pctDecodeF fuel (cs.flatMap formEncodeChar) = some cs := by
  induction cs with
  | nil =>
    intro fuel h
    match fuel, h with
    | f + 1, _ => rfl
  | cons c t ih =>
    intro fuel h
    match fuel, h with
    | f + 1, h =>
      rw [List.flatMap_cons, pctDecodeF_step, ih f (by simpa using Nat.lt_of_succ_lt_succ h)]
      rfl

theorem one_le_length_formEncodeChar (c : Char) : 1 ≤ (formEncodeChar c).length := by
  by_cases h1 : c = ' '
  · simp [formEncodeChar, h1]
  · by_cases h2 : isFormSafe c = true
    · simp [formEncodeChar, h1, h2]
    · rcases Nat.lt_or_ge c.toNat 0x80 with h | h
      · simp [formEncodeChar, h1, h2, utf8Bytes, h, pctByte]
      · rcases Nat.lt_or_ge c.toNat 0x800 with h' | h'
        · simp [formEncodeChar, h1, h2, utf8Bytes, show ¬(c.toNat < 0x80) by omega, h', pctByte]
        · rcases Nat.lt_or_ge c.toNat 0x10000 with h'' | h''
          · simp [formEncodeChar, h1, h2, utf8Bytes, show ¬(c.toNat < 0x80) by omega,
              show ¬(c.toNat < 0x800) by omega, h'', pctByte]
          · simp [formEncodeChar, h1, h2, utf8Bytes, show ¬(c.toNat < 0x80) by omega,
              show ¬(c.toNat < 0x800) by omega, show ¬(c.toNat < 0x10000) by omega, pctByte]

theorem length_le_flatMap_formEncodeChar (cs : List Char) :
    cs.length ≤ (cs.flatMap formEncodeChar).length := by
  induction cs with
  | nil => simp
  | cons c t ih =>
    have := one_le_length_formEncodeChar c
    simp only [List.flatMap_cons, List.length_append, List.length_cons]
    omega

theorem pctDecode_formEncode (s : String) : pctDecode ⟨formEncode s⟩ = some s := by
  show (pctDecodeF ((s.data.flatMap formEncodeChar).length + 1)
      (s.data.flatMap formEncodeChar)).map _ = _
  rw [pctDecodeF_encode s.data _ (by have := length_le_flatMap_formEncodeChar s.data; omega)]
  rfl

/-! ## C6 groundwork: query-string structure -/

theorem splitOnChar_append_sep {sep : Char} {g : List Char} (rest : List Char) (h : sep ∉ g) :
    splitOnChar sep (g ++ sep :: rest) = g :: splitOnChar sep rest := by
  induction g with
  | nil => simp [splitOnChar]
  | cons c t ih =>
    have hc : ¬(c = sep) := fun hh => h (hh ▸ List.mem_cons_self c t)
    have ht := ih fun hm => h (List.mem_cons_of_mem _ hm)
    simp [splitOnChar, hc, ht]

theorem utf8Bytes_lt {n : Nat} (h : n < 0x110000) : ∀ b ∈ utf8Bytes n, b < 256 := by
  intro b hb
  rcases Nat.lt_or_ge n 0x80 with h1 | h1
  · simp [utf8Bytes, h1] at hb
    omega
  · rcases Nat.lt_or_ge n 0x800 with h2 | h2
    · simp [utf8Bytes, show ¬(n < 0x80) by omega, h2] at hb
      rcases hb with rfl | rfl <;> omega
    · rcases Nat.lt_or_ge n 0x10000 with h3 | h3
      · simp [utf8Bytes, show ¬(n < 0x80) by omega, show ¬(n < 0x800) by omega, h3] at hb
        rcases hb with rfl | rfl | rfl <;> omega
      · simp [utf8Bytes, show ¬(n < 0x80) by omega, show ¬(n < 0x800) by omega,
          show ¬(n < 0x10000) by omega] at hb
        rcases hb with rfl | rfl | rfl | rfl <;> omega

theorem mem_pctByte {x : Char} {b : Nat} (hb : b < 256) (hx : x ∈ pctByte b) :
    x = '%' ∨ ∃ d, d < 16 ∧ x = hexUpperCh d := by
  simp [pctByte] at hx
  rcases hx with rfl | rfl | rfl
  · exact .inl rfl
  · exact .inr ⟨b / 16, by omega, rfl⟩
  · exact .inr ⟨b % 16, by omega, rfl⟩

theorem formEncodeChar_no_special (c : Char) :
    ∀ x ∈ formEncodeChar c, x ≠ '&' ∧ x ≠ '=' := by
  intro x hx
  by_cases h1 : c = ' '
  · subst h1
    simp [formEncodeChar] at hx
    subst hx
    exact ⟨by decide, by decide⟩
  · by_cases h2 : isFormSafe c = true
    · simp [formEncodeChar, h1, h2] at hx
      subst hx
      exact ⟨fun hh => absurd h2 (by subst hh; decide),
        fun hh => absurd h2 (by subst hh; decide)⟩
    · simp [formEncodeChar, h1, h2] at hx
      obtain ⟨b, hbm, hxb⟩ := hx
      have hblt : b < 256 :=
        utf8Bytes_lt (by rcases charValid c with h | h <;> omega) b hbm
      rcases mem_pctByte hblt hxb with rfl | ⟨d, hd, rfl⟩
      · exact ⟨by decide, by decide⟩
      · exact (by decide : ∀ d < 16, hexUpperCh d ≠ '&' ∧ hexUpperCh d ≠ '=') d hd

theorem formEncode_no_special (s : String) :
    '&' ∉ formEncode s ∧ '=' ∉ formEncode s := by
  constructor <;>
    · intro h
      rw [formEncode, List.mem_flatMap] at h
      obtain ⟨c, _, hc⟩ := h
      have := formEncodeChar_no_special c _ hc
      simp at this

theorem decodePiece_encodePair (k v : String) :
    decodePiece (formEncode k ++ '=' :: formEncode v) = some (k, v) := by
  unfold decodePiece
  rw [splitOnChar_append_sep (formEncode v) (formEncode_no_special k).2,
    splitOnChar_of_not_mem (formEncode_no_special v).2]
  simp [pctDecode_formEncode]

theorem amp_not_mem_piece (kv : String × String) :
    '&' ∉ formEncode kv.1 ++ '=' :: formEncode kv.2 := by
  intro h
  rcases List.mem_append.mp h with h | h
  · exact (formEncode_no_special kv.1).1 h
  · rcases List.mem_cons.mp h with h | h
    · cases h
    · exact (formEncode_no_special kv.2).1 h

theorem splitOnChar_joinWithAmp :
    ∀ (pieces : List (List Char)), pieces ≠ [] → (∀ x ∈ pieces, '&' ∉ x) →
      splitOnChar '&' (joinWithAmp pieces) = pieces
  | [], h, _ => absurd rfl h
  | [x], _, hall => by
    simp only [joinWithAmp]
    exact splitOnChar_of_not_mem (hall x (by simp))
  | x :: y :: t, _, hall => by
    show splitOnChar '&' (x ++ '&' :: joinWithAmp (y :: t)) = _
    rw [splitOnChar_append_sep _ (hall x (by simp)),
      splitOnChar_joinWithAmp (y :: t) (by simp) fun z hz => hall z (by simp [hz])]

theorem decodePieces_encode (prs : List (String × String)) :
    decodePieces (prs.map fun kv => formEncode kv.1 ++ '=' :: formEncode kv.2) = some prs := by
  induction prs with
  | nil => rfl
  | cons kv t ih =>
    simp only [List.map_cons, decodePieces, decodePiece_encodePair kv.1 kv.2, ih]
    rfl

theorem joinWithAmp_pieces_ne_nil (kv : String × String) (prs : List (String × String)) :
    joinWithAmp ((kv :: prs).map fun pr => formEncode pr.1 ++ '=' :: formEncode pr.2) ≠ [] := by
  cases prs with
  | nil =>
    show formEncode kv.1 ++ '=' :: formEncode kv.2 ≠ []
    simp
  | cons kv2 t =>
    show (formEncode kv.1 ++ '=' :: formEncode kv.2) ++ '&' :: _ ≠ []
    simp

/-- The query-level round-trip: decoding `buildQueryString p` always recovers
exactly the emitted pairs. -/
theorem decodeQuery_buildQueryString (p : QueryParams) :
    decodeQuery (buildQueryString p) = some (emittedPairs p) := by
  cases hpl : emittedPairs p with
  | nil => simp [buildQueryString, hpl, joinWithAmp, decodeQuery]
  | cons pr prs =>
    have hne := joinWithAmp_pieces_ne_nil pr prs
    have hbuild : buildQueryString p
        = ⟨'?' :: joinWithAmp (((pr :: prs)).map fun kv =>
            formEncode kv.1 ++ '=' :: formEncode kv.2)⟩ := by
      rw [buildQueryString, hpl, if_neg hne]
    rw [hbuild]
    show decodePieces (splitOnChar '&' (joinWithAmp _)) = _
    rw [splitOnChar_joinWithAmp _ (by simp) (by
      intro x hx
      rw [List.mem_map] at hx
      obtain ⟨kv, _, rfl⟩ := hx
      exact amp_not_mem_piece kv)]
    rw [decodePieces_encode]

/-! ## C6 groundwork: the JSON codec round-trip, numbers -/

theorem digitCh_spec : ∀ k < 10,
    (Char.ofNat ('0'.toNat + k)).toNat - '0'.toNat = k
      ∧ isDigitCh (Char.ofNat ('0'.toNat + k)) = true := by decide

theorem natCharsAux_acc (n : Nat) (acc : List Char) :
    natCharsAux n acc = natCharsAux n [] ++ acc := by
  induction n using Nat.strongRecOn generalizing acc with
  | _ n ih =>
    by_cases h : n < 10
    · simp [natCharsAux, h]
    · rw [show natCharsAux n acc
            = natCharsAux (n / 10) (Char.ofNat ('0'.toNat + n % 10) :: acc) from by
          rw [natCharsAux, dif_neg h],
        show natCharsAux n [] = natCharsAux (n / 10) [Char.ofNat ('0'.toNat + n % 10)] from by
          rw [natCharsAux, dif_neg h],
        ih (n / 10) (by omega), ih (n / 10) (by omega) [_]]
      simp

theorem natChars_unfold (n : Nat) :
    natChars n = (if n < 10 then [] else natChars (n / 10))
      ++ [Char.ofNat ('0'.toNat + n % 10)] := by
  by_cases h : n < 10
  · simp [natChars, natCharsAux, h]
  · rw [natChars, natCharsAux, dif_neg h, if_neg h]
    exact natCharsAux_acc (n / 10) [_]

theorem natChars_ne_nil (n : Nat) : natChars n ≠ [] := by
  rw [natChars_unfold]
  simp

theorem natChars_all_digits (n : Nat) : ∀ c ∈ natChars n, isDigitCh c = true := by
  induction n using Nat.strongRecOn with
  | _ n ih =>
    rw [natChars_unfold]
    intro c hc
    rcases List.mem_append.mp hc with h | h
    · by_cases h10 : n < 10
      · simp [h10] at h
      · exact ih (n / 10) (by omega) c (by simpa [h10] using h)
    · rw [List.mem_singleton] at h
      subst h
      exact (digitCh_spec (n % 10) (by omega)).2

theorem digitsNatVal_natChars (n : Nat) : digitsNatVal (natChars n) = n := by
  induction n using Nat.strongRecOn with
  | _ n ih =>
    rw [natChars_unfold]
    unfold digitsNatVal
    rw [List.foldl_append]
    by_cases h : n < 10
    · simp only [if_pos h, List.foldl_nil, List.foldl_cons]
      rw [(digitCh_spec (n % 10) (by omega)).1]
      omega
    · simp only [if_neg h, List.foldl_cons, List.foldl_nil]
      have := ih (n / 10) (by omega)
      unfold digitsNatVal at this
      rw [this, (digitCh_spec (n % 10) (by omega)).1]
      omega

/-- A remainder that cannot extend a digit run: empty or starting with a
non-digit. Every delimiter the compact grammar emits after a number
qualifies. -/
def numDelimJ : List Char → Bool
  | [] => true
  | c :: _ => !(isDigitCh c)

theorem takeDigitsCh_stop {cs : List Char} (h : numDelimJ cs = true) :
    takeDigitsCh cs = ([], cs) := by
  match cs with
  | [] => rfl
  | c :: t =>
    simp only [numDelimJ, Bool.not_eq_true'] at h
    simp [takeDigitsCh, h]

theorem takeDigitsCh_run {ds : List Char} (hds : ∀ c ∈ ds, isDigitCh c = true)
    {rest : List Char} (hrest : numDelimJ rest = true) :
    takeDigitsCh (ds ++ rest) = (ds, rest) := by
  induction ds with
  | nil => simpa using takeDigitsCh_stop hrest
  | cons c t ih =>
    have hc : isDigitCh c = true := hds c (by simp)
    have ht := ih fun x hx => hds x (by simp [hx])
    simp [takeDigitsCh, hc, ht]

theorem parseJNat_natChars (n : Nat) {rest : List Char} (hrest : numDelimJ rest = true) :
    parseJNat (natChars n ++ rest) = some (n, rest) := by
  unfold parseJNat
  rw [takeDigitsCh_run (natChars_all_digits n) hrest]
  simp [natChars_ne_nil, digitsNatVal_natChars]

/-! ## C6 groundwork: the JSON codec round-trip, strings -/

theorem hexVal_hexLowerCh : ∀ d < 16, hexVal (hexLowerCh d) = some d := by decide

theorem parseJStrAuxF_escape (c : Char) (acc rest : List Char) (fuel : Nat) :
    parseJStrAuxF (fuel + 1) acc (escapeJChar c ++ rest)
      = parseJStrAuxF fuel (c :: acc) rest := by
  by_cases h1 : c = '"'
  · subst h1; rfl
  · by_cases h2 : c = '\\'
    · subst h2; rfl
    · by_cases h3 : c = '\x08'
      · subst h3; rfl
      · by_cases h4 : c = '\t'
        · subst h4; rfl
        · by_cases h5 : c = '\n'
          · subst h5; rfl
          · by_cases h6 : c = '\x0c'
            · subst h6; rfl
            · by_cases h7 : c = '\r'
              · subst h7; rfl
              · by_cases h8 : c.toNat < 0x20
                · have hesc : escapeJChar c ++ rest
                      = '\\' :: 'u' :: '0' :: '0'
                          :: hexLowerCh (c.toNat / 16) :: hexLowerCh (c.toNat % 16) :: rest := by
                    simp [escapeJChar, h1, h2, h3, h4, h5, h6, h7, h8]
                  have hhex : hex4Val '0' '0' (hexLowerCh (c.toNat / 16))
                      (hexLowerCh (c.toNat % 16)) = some c.toNat := by
                    have ha := hexVal_hexLowerCh (c.toNat / 16) (by omega)
                    have hb := hexVal_hexLowerCh (c.toNat % 16) (by omega)
                    simp only [hex4Val]
                    rw [show hexVal '0' = some 0 from rfl, ha, hb]
                    simp
                    omega
                  have hstep : parseJStrAuxF (fuel + 1) acc ('\\' :: 'u' :: '0' :: '0'
                        :: hexLowerCh (c.toNat / 16) :: hexLowerCh (c.toNat % 16) :: rest)
                      = (match hex4Val '0' '0' (hexLowerCh (c.toNat / 16))
                            (hexLowerCh (c.toNat % 16)) with
                         | some n => parseJStrAuxF fuel (Char.ofNat n :: acc) rest
                         | none => none) := rfl
                  rw [hesc, hstep, hhex]
                  simp [Char.ofNat_toNat]
                · have hesc : escapeJChar c ++ rest = c :: rest := by
                    simp [escapeJChar, h1, h2, h3, h4, h5, h6, h7, h8]
                  rw [hesc]
                  simp only [parseJStrAuxF]
                  rw [if_neg h1, if_neg h2]

theorem parseJStrAuxF_flatMap (cs : List Char) : ∀ (acc rest : List Char) (fuel : Nat),
    cs.length < fuel →
      parseJStrAuxF fuel acc (cs.flatMap escapeJChar ++ '"' :: rest)
        = some (⟨acc.reverse ++ cs⟩, rest) := by
  induction cs with
  | nil =>
    intro acc rest fuel h
    match fuel, h with
    | f + 1, _ =>
      rw [List.flatMap_nil, List.nil_append,
        show parseJStrAuxF (f + 1) acc ('"' :: rest) = some (⟨acc.reverse⟩, rest) from rfl]
      simp
  | cons c cs ih =>
    intro acc rest fuel h
    match fuel, h with
    | f + 1, h =>
      rw [List.flatMap_cons, List.append_assoc, parseJStrAuxF_escape,
        ih (c :: acc) rest f (by simpa using Nat.lt_of_succ_lt_succ h)]
      simp

theorem parseJStr_render (k : String) (X : List Char) {fuel : Nat}
    (h : k.data.length < fuel) :
    parseJStrAuxF fuel [] (k.data.flatMap escapeJChar ++ '"' :: X) = some (k, X) := by
  rw [parseJStrAuxF_flatMap k.data [] X fuel h]
  rfl

/-! ## C6 groundwork: the JSON codec round-trip, values -/

theorem one_le_length_escapeJChar (c : Char) : 1 ≤ (escapeJChar c).length := by
  unfold escapeJChar
  split_ifs <;> simp

theorem length_le_flatMap_escapeJChar (cs : List Char) :
    cs.length ≤ (cs.flatMap escapeJChar).length := by
  induction cs with
  | nil => simp
  | cons c t ih =>
    have := one_le_length_escapeJChar c
    simp only [List.flatMap_cons, List.length_append, List.length_cons]
    omega

theorem numDelimJ_cons {c : Char} (h : isDigitCh c = false) (t : List Char) :
    numDelimJ (c :: t) = true := by
  simp [numDelimJ, h]

theorem natChars_cons (n : Nat) : ∃ c t, natChars n = c :: t ∧ isDigitCh c = true := by
  cases h : natChars n with
  | nil => exact absurd h (natChars_ne_nil n)
  | cons a b => exact ⟨a, b, rfl, natChars_all_digits n a (h ▸ List.mem_cons_self a b)⟩

theorem digit_ne_starters {c : Char} (h : isDigitCh c = true) :
    c ≠ 'n' ∧ c ≠ 't' ∧ c ≠ 'f' ∧ c ≠ '"' ∧ c ≠ '[' ∧ c ≠ '{' ∧ c ≠ '-'
      ∧ c ≠ ']' ∧ c ≠ '}' ∧ c ≠ ',' := by
  refine ⟨?_, ?_, ?_, ?_, ?_, ?_, ?_, ?_, ?_, ?_⟩ <;>
    exact fun hh => absurd h (by subst hh; decide)

theorem parseJVal_digitHead (fuel : Nat) {c0 : Char} (t : List Char)
    (h : isDigitCh c0 = true) :
    parseJVal (fuel + 1) (c0 :: t) =
      (parseJNat (c0 :: t)).map fun nr => (.num (nr.1 : Int), nr.2) := by
  obtain ⟨h1, h2, h3, h4, h5, h6, h7, _, _, _⟩ := digit_ne_starters h
  simp only [parseJVal]
  rw [if_neg h1, if_neg h2, if_neg h3, if_neg h4, if_neg h5, if_neg h6, if_neg h7, if_pos h]

theorem parseJVal_num (fuel : Nat) (i : Int) {rest : List Char}
    (hrest : numDelimJ rest = true) :
    parseJVal (fuel + 1) (intChars i ++ rest) = some (.num i, rest) := by
  by_cases hneg : i < 0
  · have hshape : intChars i ++ rest = '-' :: (natChars i.natAbs ++ rest) := by
      simp [intChars, hneg]
    rw [hshape]
    simp only [parseJVal, if_true]
    rw [parseJNat_natChars i.natAbs hrest]
    simp [Int.ofNat_natAbs_of_nonpos (le_of_lt hneg)]
  · obtain ⟨c0, t0, h0⟩ : ∃ c0 t0, natChars i.natAbs = c0 :: t0 := by
      cases hnc : natChars i.natAbs with
      | nil => exact absurd hnc (natChars_ne_nil _)
      | cons a b => exact ⟨a, b, rfl⟩
    have hc0 : isDigitCh c0 = true :=
      natChars_all_digits i.natAbs c0 (h0 ▸ List.mem_cons_self c0 t0)
    have hshape : intChars i ++ rest = c0 :: (t0 ++ rest) := by
      simp [intChars, hneg, h0]
    rw [hshape, parseJVal_digitHead fuel _ hc0]
    have : c0 :: (t0 ++ rest) = natChars i.natAbs ++ rest := by rw [h0]; rfl
    rw [this, parseJNat_natChars i.natAbs hrest]
    simp
    omega

theorem renderJ_head (j : Json) : ∃ c t, renderJ j = c :: t ∧ c ≠ ']' ∧ c ≠ '}' := by
  cases j with
  | null => exact ⟨'n', ['u', 'l', 'l'], by simp [renderJ], by decide, by decide⟩
  | bool b =>
    cases b with
    | true => exact ⟨'t', ['r', 'u', 'e'], by simp [renderJ], by decide, by decide⟩
    | false => exact ⟨'f', ['a', 'l', 's', 'e'], by simp [renderJ], by decide, by decide⟩
  | num i =>
    by_cases h : i < 0
    · exact ⟨'-', natChars i.natAbs, by simp [renderJ, intChars, h, natChars],
        by decide, by decide⟩
    · obtain ⟨c0, t0, h0, hd⟩ := natChars_cons i.natAbs
      obtain ⟨_, _, _, _, _, _, _, hrb, hcb, _⟩ := digit_ne_starters hd
      exact ⟨c0, t0, by simp [renderJ, intChars, h, h0], hrb, hcb⟩
  | str s =>
    exact ⟨'"', s.data.flatMap escapeJChar ++ ['"'], by simp [renderJ, renderJStr],
      by decide, by decide⟩
  | arr es =>
    exact ⟨'[', renderJList es ++ [']'], by simp [renderJ], by decide, by decide⟩
  | obj ms =>
    exact ⟨'{', renderJMembers ms ++ ['}'], by simp [renderJ], by decide, by decide⟩

mutual
theorem rt_val : ∀ (j : Json) (fuel : Nat) (rest : List Char),
    (renderJ j).length < fuel → numDelimJ rest = true →
    parseJVal fuel (renderJ j ++ rest) = some (j, rest)
  | .null, fuel, rest, hf, _ => by
    cases fuel with
    | zero => exact absurd hf (Nat.not_lt_zero _)
    | succ f =>
      rw [show renderJ Json.null = ['n', 'u', 'l', 'l'] from by simp [renderJ]]
      rfl
  | .bool true, fuel, rest, hf, _ => by
    cases fuel with
    | zero => exact absurd hf (Nat.not_lt_zero _)
    | succ f =>
      rw [show renderJ (Json.bool true) = ['t', 'r', 'u', 'e'] from by simp [renderJ]]
      rfl
  | .bool false, fuel, rest, hf, _ => by
    cases fuel with
    | zero => exact absurd hf (Nat.not_lt_zero _)
    | succ f =>
      rw [show renderJ (Json.bool false) = ['f', 'a', 'l', 's', 'e'] from by simp [renderJ]]
      rfl
  | .num i, fuel, rest, hf, hrest => by
    cases fuel with
    | zero => exact absurd hf (Nat.not_lt_zero _)
    | succ f =>
      rw [show renderJ (Json.num i) = intChars i from by simp [renderJ]]
      exact parseJVal_num f i hrest
  | .str s, fuel, rest, hf, _ => by
    cases fuel with
    | zero => exact absurd hf (Nat.not_lt_zero _)
    | succ f =>
      have hlen : s.data.length < f := by
        have h1 : (renderJ (Json.str s)).length = (s.data.flatMap escapeJChar).length + 2 := by
          simp [renderJ, renderJStr]
        have h2 := length_le_flatMap_escapeJChar s.data
        omega
      rw [show renderJ (Json.str s) ++ rest
          = '"' :: (s.data.flatMap escapeJChar ++ '"' :: rest) from by
        simp [renderJ, renderJStr]]
      rw [show parseJVal (f + 1) ('"' :: (s.data.flatMap escapeJChar ++ '"' :: rest))
          = (parseJStrAuxF f [] (s.data.flatMap escapeJChar ++ '"' :: rest)).map
              (fun sr => (Json.str sr.1, sr.2)) from rfl]
      rw [parseJStr_render s rest hlen]
      rfl
  | .arr [], fuel, rest, hf, _ => by
    cases fuel with
    | zero => exact absurd hf (Nat.not_lt_zero _)
    | succ f =>
      rw [show renderJ (Json.arr []) = ['[', ']'] from by simp [renderJ, renderJList]]
      rfl
  | .arr (e :: es), fuel, rest, hf, _ => by
    cases fuel with
    | zero => exact absurd hf (Nat.not_lt_zero _)
    | succ f =>
      have hlen : (renderJList (e :: es)).length + 1 < f := by
        have : (renderJ (Json.arr (e :: es))).length = (renderJList (e :: es)).length + 2 := by
          simp [renderJ]
        omega
      obtain ⟨c2, t2, h2, hc2, _⟩ := renderJ_head e
      have hcons : renderJList (e :: es) ++ ']' :: rest
          = c2 :: (t2 ++ (renderJListTail es ++ ']' :: rest)) := by
        simp [renderJList, h2]
      rw [show renderJ (Json.arr (e :: es)) ++ rest
          = '[' :: (renderJList (e :: es) ++ ']' :: rest) from by simp [renderJ]]
      rw [hcons]
      rw [show parseJVal (f + 1) ('[' :: c2 :: (t2 ++ (renderJListTail es ++ ']' :: rest)))
          = (if c2 = ']' then some (Json.arr [], t2 ++ (renderJListTail es ++ ']' :: rest))
             else (parseJElems f (c2 :: (t2 ++ (renderJListTail es ++ ']' :: rest)))).map
               fun er => (Json.arr er.1, er.2)) from rfl, if_neg hc2]
      rw [← hcons, rt_elems e es f rest hlen]
      rfl
  | .obj [], fuel, rest, hf, _ => by
    cases fuel with
    | zero => exact absurd hf (Nat.not_lt_zero _)
    | succ f =>
      rw [show renderJ (Json.obj []) = ['{', '}'] from by simp [renderJ, renderJMembers]]
      rfl
  | .obj (m :: ms), fuel, rest, hf, _ => by
    cases fuel with
    | zero => exact absurd hf (Nat.not_lt_zero _)
    | succ f =>
      have hlen : (renderJMembers (m :: ms)).length + 1 < f := by
        have : (renderJ (Json.obj (m :: ms))).length = (renderJMembers (m :: ms)).length + 2 := by
          simp [renderJ]
        omega
      have hcons : renderJMembers (m :: ms) ++ '}' :: rest
          = '"' :: ((m.1.data.flatMap escapeJChar ++ ['"'])
              ++ (':' :: (renderJ m.2 ++ (renderJMembersTail ms ++ '}' :: rest)))) := by
        cases m with
        | mk k v => simp [renderJMembers, renderJStr]
      rw [show renderJ (Json.obj (m :: ms)) ++ rest
          = '{' :: (renderJMembers (m :: ms) ++ '}' :: rest) from by simp [renderJ]]
      rw [hcons]
      rw [show parseJVal (f + 1)
            ('{' :: '"' :: ((m.1.data.flatMap escapeJChar ++ ['"'])
              ++ (':' :: (renderJ m.2 ++ (renderJMembersTail ms ++ '}' :: rest)))))
          = (if ('"' : Char) = '}' then
              some (Json.obj [], (m.1.data.flatMap escapeJChar ++ ['"'])
                ++ (':' :: (renderJ m.2 ++ (renderJMembersTail ms ++ '}' :: rest))))
             else (parseJMembers f ('"' :: ((m.1.data.flatMap escapeJChar ++ ['"'])
                ++ (':' :: (renderJ m.2 ++ (renderJMembersTail ms ++ '}' :: rest)))))).map
               fun mr => (Json.obj mr.1, mr.2)) from rfl,
        if_neg (by decide : ¬(('"' : Char) = '}'))]
      rw [← hcons, rt_members m ms f rest hlen]
      rfl
termination_by j _ _ _ _ => sizeOf j

theorem rt_elems : ∀ (e : Json) (es : List Json) (fuel : Nat) (rest : List Char),
    (renderJList (e :: es)).length + 1 < fuel →
    parseJElems fuel (renderJList (e :: es) ++ ']' :: rest) = some (e :: es, rest)
  | e, [], fuel, rest, hf => by
    cases fuel with
    | zero => exact absurd hf (Nat.not_lt_zero _)
    | succ f =>
      have hfe : (renderJ e).length < f := by
        have : (renderJList [e]).length = (renderJ e).length := by
          simp [renderJList, renderJListTail]
        omega
      rw [show renderJList [e] ++ ']' :: rest = renderJ e ++ ']' :: rest from by
        simp [renderJList, renderJListTail]]
      simp only [parseJElems]
      rw [rt_val e f (']' :: rest) hfe (numDelimJ_cons (by decide) rest)]
      simp
  | e, x :: xs, fuel, rest, hf => by
    cases fuel with
    | zero => exact absurd hf (Nat.not_lt_zero _)
    | succ f =>
      have hsplit : renderJList (e :: x :: xs) = renderJ e ++ (',' :: renderJList (x :: xs)) := by
        simp [renderJList, renderJListTail]
      have hlens := congrArg List.length hsplit
      simp only [List.length_append, List.length_cons] at hlens
      have hfe : (renderJ e).length < f := by omega
      have hfx : (renderJList (x :: xs)).length + 1 < f := by omega
      rw [show renderJList (e :: x :: xs) ++ ']' :: rest
          = renderJ e ++ (',' :: (renderJList (x :: xs) ++ ']' :: rest)) from by
        rw [hsplit]; simp]
      simp only [parseJElems]
      rw [rt_val e f (',' :: (renderJList (x :: xs) ++ ']' :: rest)) hfe
        (numDelimJ_cons (by decide) _)]
      rw [show (match (some (e, ',' :: (renderJList (x :: xs) ++ ']' :: rest))) with
          | none => none
          | some (v, r) =>
            match r with
            | [] => none
            | c2 :: r2 =>
              if c2 = ',' then (parseJElems f r2).map fun er => (v :: er.1, er.2)
              else if c2 = ']' then some ([v], r2)
              else none)
          = (parseJElems f (renderJList (x :: xs) ++ ']' :: rest)).map
              fun er => (e :: er.1, er.2) from by simp]
      rw [rt_elems x xs f rest hfx]
      rfl
termination_by e es _ _ _ => sizeOf e + sizeOf es

theorem rt_members : ∀ (m : String × Json) (ms : List (String × Json)) (fuel : Nat)
    (rest : List Char),
    (renderJMembers (m :: ms)).length + 1 < fuel →
    parseJMembers fuel (renderJMembers (m :: ms) ++ '}' :: rest) = some (m :: ms, rest)
  | (k, v), [], fuel, rest, hf => by
    cases fuel with
    | zero => exact absurd hf (Nat.not_lt_zero _)
    | succ f =>
      have hlenm : (renderJMembers [(k, v)]).length
          = (k.data.flatMap escapeJChar).length + 3 + (renderJ v).length := by
        simp [renderJMembers, renderJMembersTail, renderJStr]
        omega
      have hk : k.data.length < f := by
        have := length_le_flatMap_escapeJChar k.data
        omega
      have hv : (renderJ v).length < f := by omega
      rw [show renderJMembers [(k, v)] ++ '}' :: rest
          = '"' :: (k.data.flatMap escapeJChar
              ++ '"' :: (':' :: (renderJ v ++ '}' :: rest))) from by
        simp [renderJMembers, renderJMembersTail, renderJStr]]
      simp only [parseJMembers, if_true]
      rw [parseJStr_render k (':' :: (renderJ v ++ '}' :: rest)) hk]
      simp [rt_val v f ('}' :: rest) hv (numDelimJ_cons (by decide) rest)]
  | (k, v), m2 :: ms2, fuel, rest, hf => by
    cases fuel with
    | zero => exact absurd hf (Nat.not_lt_zero _)
    | succ f =>
      have hsplit : renderJMembers ((k, v) :: m2 :: ms2)
          = '"' :: (k.data.flatMap escapeJChar
              ++ '"' :: (':' :: (renderJ v ++ ',' :: renderJMembers (m2 :: ms2)))) := by
        cases m2 with
        | mk k2 v2 => simp [renderJMembers, renderJMembersTail, renderJStr]
      have hlens := congrArg List.length hsplit
      simp only [List.length_cons, List.length_append] at hlens
      have hk : k.data.length < f := by
        have := length_le_flatMap_escapeJChar k.data
        omega
      have hv : (renderJ v).length < f := by omega
      have hms : (renderJMembers (m2 :: ms2)).length + 1 < f := by omega
      rw [show renderJMembers ((k, v) :: m2 :: ms2) ++ '}' :: rest
          = '"' :: (k.data.flatMap escapeJChar
              ++ '"' :: (':' :: (renderJ v
                ++ ',' :: (renderJMembers (m2 :: ms2) ++ '}' :: rest)))) from by
        rw [hsplit]; simp]
      simp only [parseJMembers, if_true]
      rw [parseJStr_render k
        (':' :: (renderJ v ++ ',' :: (renderJMembers (m2 :: ms2) ++ '}' :: rest))) hk]
      simp [rt_val v f (',' :: (renderJMembers (m2 :: ms2) ++ '}' :: rest)) hv
          (numDelimJ_cons (by decide) _),
        rt_members m2 ms2 f rest hms]
termination_by m ms _ _ _ => sizeOf m + sizeOf ms
end

/-- The JSON codec round-trip: parsing a compactly stringified value recovers
it exactly (deep equality). -/
theorem jsonParse_jsonStringify (j : Json) : jsonParse (jsonStringify j) = some j := by
  have h := rt_val j ((renderJ j).length + 1) [] (by omega) rfl
  rw [List.append_nil] at h
  unfold jsonParse
  rw [show (jsonStringify j).data = renderJ j from rfl]
  rw [h]

/-! ## C6: the query-encoder round-trip -/

theorem slPairs_present {key : String} {v : Option StrOrList} (h : v ≠ some (.str "")) :
    slPairs key v = presentPair key v joinComma := by
  match v with
  | none => rfl
  | some (.str s) =>
    have hs : ¬(s = "") := fun hh => h (by rw [hh])
    simp [slPairs, presentPair, joinComma, hs]
  | some (.list xs) => rfl

theorem strPairs_present {key : String} {v : Option String} (h : v ≠ some "") :
    strPairs key v = presentPair key v id := by
  match v with
  | none => rfl
  | some s =>
    have hs : ¬(s = "") := fun hh => h (by rw [hh])
    simp [strPairs, presentPair, hs]

theorem jsonPairs_present {key : String} {v : Option Json}
    (h : ∀ j, v = some j → jsTruthyJson j = true) :
    jsonPairs key v = presentPair key v jsonStringify := by
  match v with
  | none => rfl
  | some j => simp [jsonPairs, presentPair, h j rfl]

theorem numPairs_present (key : String) (v : Option Int) :
    numPairs key v = presentPair key v fun n => (⟨intChars n⟩ : String) := by
  match v with
  | none => rfl
  | some n => rfl

/-- C6 counterexample: the bag `{search: ""}` — the `search` key present with
a string of its declared type — encodes to the empty query string, so the
decoded key set is empty and does not recover the original key set. -/
theorem buildQueryString_roundtrip_counterexample :
    buildQueryString { search := some "" } = "" ∧
      decodeQuery (buildQueryString { search := some "" }) = some [] ∧
      presentPairs { search := some "" } = [("search", "")] ∧
      some ([] : List (String × String)) ≠ some [("search", "")] := by
  refine ⟨rfl, rfl, rfl, by simp⟩

/-- C6 amended: for every parameter bag whose present truthiness-gated values
are truthy (non-empty strings for `search`/`meta`/`export` and string-typed
`fields`/`sort`/`groupBy`, truthy JSON values for `filter`/`aggregate`/`deep`;
arrays and numbers are unrestricted), encoding and parsing back recovers
exactly the present keys with the original comma-joined representation for
array keys, the original string for plain keys, the decimal form for numeric
keys, and, for the JSON-valued keys, a serialization that parses back to a
deep-equal structure. -/
theorem buildQueryString_roundtrip (p : QueryParams)
    (hfields : p.fields ≠ some (.str "")) (hsearch : p.search ≠ some "")
    (hsort : p.sort ≠ some (.str "")) (hgroupBy : p.groupBy ≠ some (.str ""))
    (hmeta : p.meta ≠ some "") (hexport : p.«export» ≠ some "")
    (hfilter : ∀ j, p.filter = some j → jsTruthyJson j = true)
    (haggregate : ∀ j, p.aggregate = some j → jsTruthyJson j = true)
    (hdeep : ∀ j, p.deep = some j → jsTruthyJson j = true) :
    decodeQuery (buildQueryString p) = some (presentPairs p) ∧
      (∀ j, p.filter = some j → jsonParse (jsonStringify j) = some j) ∧
      (∀ j, p.aggregate = some j → jsonParse (jsonStringify j) = some j) ∧
      (∀ j, p.deep = some j → jsonParse (jsonStringify j) = some j) := by
  refine ⟨?_, fun j _ => jsonParse_jsonStringify j, fun j _ => jsonParse_jsonStringify j,
    fun j _ => jsonParse_jsonStringify j⟩
  rw [decodeQuery_buildQueryString]
  congr 1
  unfold emittedPairs presentPairs
  rw [slPairs_present hfields, jsonPairs_present hfilter, strPairs_present hsearch,
    slPairs_present hsort, numPairs_present "limit" p.limit,
    numPairs_present "offset" p.offset, numPairs_present "page" p.page,
    jsonPairs_present haggregate, slPairs_present hgroupBy, jsonPairs_present hdeep,
    strPairs_present hmeta, strPairs_present hexport]

/-- Witness for C6 amended: scenario D. The bag
`{fields: ["id","title"], limit: 10, filter: {status: {_eq: "published"}}}`
decodes back to `fields=id,title`, the filter serialization, and `limit=10`,
and the filter serialization parses back to the original structure. -/
theorem buildQueryString_roundtrip_witness :
    decodeQuery (buildQueryString scenarioDParams) =
        some [("fields", "id,title"),
          ("filter", "\x7b\"status\":\x7b\"_eq\":\"published\"\x7d\x7d"), ("limit", "10")] ∧
      jsonParse "\x7b\"status\":\x7b\"_eq\":\"published\"\x7d\x7d"
        = some (.obj [("status", .obj [("_eq", .str "published")])]) := by
  have h := buildQueryString_roundtrip scenarioDParams (by simp [scenarioDParams])
    (by simp [scenarioDParams]) (by simp [scenarioDParams]) (by simp [scenarioDParams])
    (by simp [scenarioDParams]) (by simp [scenarioDParams])
    (by intro j hj
        have hj2 := Option.some.inj hj
        subst hj2
        rfl)
    (by intro j hj; simp [scenarioDParams] at hj)
    (by intro j hj; simp [scenarioDParams] at hj)
  have hstr : jsonStringify (Json.obj [("status", Json.obj [("_eq", Json.str "published")])])
      = "\x7b\"status\":\x7b\"_eq\":\"published\"\x7d\x7d" := by
    simp [jsonStringify, renderJ, renderJMembers, renderJMembersTail, renderJStr, escapeJChar]
  have hpp : presentPairs scenarioDParams
      = [("fields", "id,title"),
          ("filter", "\x7b\"status\":\x7b\"_eq\":\"published\"\x7d\x7d"), ("limit", "10")] := by
    simp [presentPairs, scenarioDParams, presentPair, joinComma, joinCommaList, hstr,
      intChars, natChars, natCharsAux]
  refine ⟨hpp ▸ h.1, ?_⟩
  have h2 := h.2.1 (Json.obj [("status", Json.obj [("_eq", Json.str "published")])]) rfl
  rw [hstr] at h2
  exact h2

end DirectusMCP
